import Mathlib

/-!
Shallow embedding of the LiDAR-based anomaly detector core
(geometry primitives, octree spatial index, the two DBSCAN variants and
the LVX scanner control flow), together with proofs and refutations of
the specification claims.

Modelling conventions:
* C++ `double` coordinates are embedded as exact rationals (`ℚ`); every
  IEEE double is a rational, and none of the claims under study depends
  on rounding of coordinate arithmetic.
* Angles (`std::acos`) and vector normalisation are transcendental, so
  per-point normal vectors are embedded with real (`ℝ`) components.
* The octree stores indices into the point array instead of raw
  pointers; the source recovers indices from pointers by pointer
  arithmetic, so the two views are interchangeable (spec §9).
* Out-of-range vector reads are undefined behaviour in the C++ source;
  the embedding uses the dummy point `noPt` for them.  All reachable
  reads are in range.
-/

namespace LBAD

/-- `PointCluster` tags from `Point.hh`. -/
def cUnclassified : ℤ := -1

/-- Transitional "core point" tag (never assigned by the code). -/
def cCorePoint : ℤ := -2

/-- Transitional "border point" tag (never assigned by the code). -/
def cBorderPoint : ℤ := -3

/-- Noise tag from `Point.hh`. -/
def cNoise : ℤ := -4

/-- `Point` from `Point.hh`: coordinates plus the mutable cluster tag. -/
structure Point where
  x : ℚ
  y : ℚ
  z : ℚ
  cID : ℤ
  deriving DecidableEq, Repr

/-- Dummy point used for (unreachable) out-of-range vector reads.
Its tag is `0`, so it is never mistaken for an unclassified point. -/
def noPt : Point := ⟨0, 0, 0, 0⟩

/-- `std::numeric_limits<double>::epsilon() = 2⁻⁵²`. -/
def dblEpsilon : ℚ := 1 / 2 ^ 52

/-- `Point::operator==` : component-wise near-equality to machine epsilon
(the cluster tag is not consulted). -/
def ptEq (p q : Point) : Bool :=
  decide (|p.x - q.x| ≤ dblEpsilon) && decide (|p.y - q.y| ≤ dblEpsilon) &&
    decide (|p.z - q.z| ≤ dblEpsilon)

/-- `Point::operator!=` : the exact negation of `operator==`. -/
def ptNe (p q : Point) : Bool := !ptEq p q

/-- Squared Euclidean distance.  `Point::distance3D` returns
`√(dx²+dy²+dz²)`; the embedding keeps the (rational) square and compares
squares, which is equivalent for nonnegative radii. -/
def distance2 (p q : Point) : ℚ :=
  (p.x - q.x) * (p.x - q.x) + (p.y - q.y) * (p.y - q.y) + (p.z - q.z) * (p.z - q.z)

/-- Sphere kernel membership.  Modelled from the spec (§4.1):
`Sphere : ‖p − center‖₂ ≤ radius`, stated without square roots
(`‖p − c‖ ≤ r ↔ 0 ≤ r ∧ ‖p − c‖² ≤ r²`). -/
def inSphere (center : Point) (r : ℚ) (p : Point) : Bool :=
  decide (0 ≤ r) && decide (distance2 p center ≤ r * r)

/-- Write the cluster tag of the point at index `i` (C++
`points[i].setClusterID(c)`). -/
def setCID (pts : List Point) (i : ℕ) (c : ℤ) : List Point :=
  pts.set i { pts.getD i noPt with cID := c }

/-- The spec-side Euclidean sphere predicate with a real square root,
used to state claims in the spec's own `‖p − c‖₂ ≤ r` form. -/
def inSphereR (center : Point) (r : ℚ) (p : Point) : Prop :=
  Real.sqrt ((distance2 p center : ℚ) : ℝ) ≤ (r : ℝ)

theorem inSphere_iff_inSphereR (center : Point) (r : ℚ) (p : Point) :
    inSphere center r p = true ↔ inSphereR center r p := by
  unfold inSphere inSphereR
  simp only [Bool.and_eq_true, decide_eq_true_eq]
  constructor
  · rintro ⟨hr, hd⟩
    have h2 : ((distance2 p center : ℚ) : ℝ) ≤ ((r : ℚ) : ℝ) ^ 2 := by
      rw [sq]; exact_mod_cast hd
    have := Real.sqrt_le_sqrt h2
    calc Real.sqrt ((distance2 p center : ℚ) : ℝ) ≤ Real.sqrt (((r : ℚ) : ℝ) ^ 2) := this
      _ = |((r : ℚ) : ℝ)| := Real.sqrt_sq_eq_abs _
      _ = ((r : ℚ) : ℝ) := abs_of_nonneg (by exact_mod_cast hr)
  · intro h
    have hd0 : (0 : ℝ) ≤ ((distance2 p center : ℚ) : ℝ) := by
      have : (0 : ℚ) ≤ distance2 p center := by
        unfold distance2
        have h1 := mul_self_nonneg (p.x - center.x)
        have h2 := mul_self_nonneg (p.y - center.y)
        have h3 := mul_self_nonneg (p.z - center.z)
        linarith
      exact_mod_cast this
    have hr0 : (0 : ℝ) ≤ (r : ℝ) := le_trans (Real.sqrt_nonneg _) h
    constructor
    · exact_mod_cast hr0
    · have hsq : ((distance2 p center : ℚ) : ℝ) ≤ (r : ℝ) * (r : ℝ) := by
        have h1 : Real.sqrt ((distance2 p center : ℚ) : ℝ) ^ 2 ≤ (r : ℝ) ^ 2 := by
          apply pow_le_pow_left₀ (Real.sqrt_nonneg _) h
        rwa [Real.sq_sqrt hd0, sq] at h1
      exact_mod_cast hsq

theorem distance2_nonneg (p q : Point) : 0 ≤ distance2 p q := by
  unfold distance2
  have h1 := mul_self_nonneg (p.x - q.x)
  have h2 := mul_self_nonneg (p.y - q.y)
  have h3 := mul_self_nonneg (p.z - q.z)
  linarith

/-- `Point::operator-` (component-wise; the constructed point carries the
default `cUnclassified` tag, as in the C++ constructor). -/
def Point.sub (p q : Point) : Point :=
  ⟨p.x - q.x, p.y - q.y, p.z - q.z, cUnclassified⟩

/-- One axis of the `BBox(points)` constructor body:
`if (min > v) min = v; else if (max < v) max = v;`. -/
def bbAxis (mn mx v : ℚ) : ℚ × ℚ :=
  if mn > v then (v, mx) else if mx < v then (mn, v) else (mn, mx)

/-- One iteration of the `BBox(points)` constructor loop over the three
axes. -/
def bbFold (s : Point × Point) (p : Point) : Point × Point :=
  let ax := bbAxis s.1.x s.2.x p.x
  let ay := bbAxis s.1.y s.2.y p.y
  let az := bbAxis s.1.z s.2.z p.z
  ({ s.1 with x := ax.1, y := ay.1, z := az.1 },
   { s.2 with x := ax.2, y := ay.2, z := az.2 })

/-- `BBox` from `BBox.hh`: cached delta plus the two corner points. -/
structure BBox where
  delta : Point
  min : Point
  max : Point
  deriving Repr

/-- The `BBox(const std::vector<Point>&)` constructor.  For an empty
vector the members keep their default-constructed (all-zero) values. -/
def BBox.ofPoints (pts : List Point) : BBox :=
  match pts with
  | [] =>
      { delta := ⟨0, 0, 0, cUnclassified⟩, min := ⟨0, 0, 0, cUnclassified⟩
        max := ⟨0, 0, 0, cUnclassified⟩ }
  | p :: rest =>
      let s := rest.foldl bbFold (p, p)
      { delta := Point.sub s.2 s.1, min := s.1, max := s.2 }

/-- `BBox::volume`. -/
def BBox.volume (b : BBox) : ℚ := b.delta.x * b.delta.y * b.delta.z

theorem bbAxis_min_max {mn mx : ℚ} (v : ℚ) (h : mn ≤ mx) :
    bbAxis mn mx v = (Min.min mn v, Max.max mx v) := by
  unfold bbAxis
  rcases lt_trichotomy v mn with hv | hv | hv
  · rw [if_pos hv]
    have h1 : Min.min mn v = v := min_eq_right hv.le
    have h2 : Max.max mx v = mx := max_eq_left (hv.le.trans h)
    rw [h1, h2]
  · subst hv
    rw [if_neg (lt_irrefl v), if_neg (not_lt.mpr h), min_self,
      max_eq_left h]
  · rw [if_neg (not_lt.mpr hv.le)]
    have h1 : Min.min mn v = mn := min_eq_left hv.le
    rw [h1]
    by_cases h2 : mx < v
    · rw [if_pos h2, max_eq_right h2.le]
    · rw [if_neg h2, max_eq_left (not_lt.mp h2)]

/-- The constructor loop computes the running component-wise min/max:
fold characterisation, assuming the running min is below the running max
(which holds from the start, both being `points[0]`). -/
theorem bbFold_foldl (l : List Point) :
    ∀ mn mx : Point, mn.x ≤ mx.x → mn.y ≤ mx.y → mn.z ≤ mx.z →
    (l.foldl bbFold (mn, mx)).1.x = l.foldl (fun a q => Min.min a q.x) mn.x ∧
    (l.foldl bbFold (mn, mx)).1.y = l.foldl (fun a q => Min.min a q.y) mn.y ∧
    (l.foldl bbFold (mn, mx)).1.z = l.foldl (fun a q => Min.min a q.z) mn.z ∧
    (l.foldl bbFold (mn, mx)).2.x = l.foldl (fun a q => Max.max a q.x) mx.x ∧
    (l.foldl bbFold (mn, mx)).2.y = l.foldl (fun a q => Max.max a q.y) mx.y ∧
    (l.foldl bbFold (mn, mx)).2.z = l.foldl (fun a q => Max.max a q.z) mx.z := by
  induction l with
  | nil => intro mn mx _ _ _; exact ⟨rfl, rfl, rfl, rfl, rfl, rfl⟩
  | cons p rest ih =>
      intro mn mx hx hy hz
      have hstep : bbFold (mn, mx) p =
          ({ mn with x := Min.min mn.x p.x, y := Min.min mn.y p.y, z := Min.min mn.z p.z },
           { mx with x := Max.max mx.x p.x, y := Max.max mx.y p.y, z := Max.max mx.z p.z }) := by
        unfold bbFold
        rw [bbAxis_min_max p.x hx, bbAxis_min_max p.y hy, bbAxis_min_max p.z hz]
      simp only [List.foldl_cons, hstep]
      exact ih _ _ (le_trans (min_le_left _ _) (le_trans hx (le_max_left _ _)))
        (le_trans (min_le_left _ _) (le_trans hy (le_max_left _ _)))
        (le_trans (min_le_left _ _) (le_trans hz (le_max_left _ _)))

/-- C8: For every (possibly empty) vector of points, the constructed
`BBox` has `min` equal to the component-wise minimum of the points,
`max` equal to the component-wise maximum, and `delta = max - min`
component-wise; for the empty vector `min`, `max` and `delta` are all
`(0,0,0)` and `volume()` returns `0`. -/
theorem bbox_of_points_componentwise (pts : List Point) :
    (pts = [] →
      (BBox.ofPoints pts).min.x = 0 ∧ (BBox.ofPoints pts).min.y = 0 ∧
      (BBox.ofPoints pts).min.z = 0 ∧ (BBox.ofPoints pts).max.x = 0 ∧
      (BBox.ofPoints pts).max.y = 0 ∧ (BBox.ofPoints pts).max.z = 0 ∧
      (BBox.ofPoints pts).delta.x = 0 ∧ (BBox.ofPoints pts).delta.y = 0 ∧
      (BBox.ofPoints pts).delta.z = 0 ∧ (BBox.ofPoints pts).volume = 0) ∧
    (∀ p rest, pts = p :: rest →
      (BBox.ofPoints pts).min.x = rest.foldl (fun a q => Min.min a q.x) p.x ∧
      (BBox.ofPoints pts).min.y = rest.foldl (fun a q => Min.min a q.y) p.y ∧
      (BBox.ofPoints pts).min.z = rest.foldl (fun a q => Min.min a q.z) p.z ∧
      (BBox.ofPoints pts).max.x = rest.foldl (fun a q => Max.max a q.x) p.x ∧
      (BBox.ofPoints pts).max.y = rest.foldl (fun a q => Max.max a q.y) p.y ∧
      (BBox.ofPoints pts).max.z = rest.foldl (fun a q => Max.max a q.z) p.z ∧
      (BBox.ofPoints pts).delta.x = (BBox.ofPoints pts).max.x - (BBox.ofPoints pts).min.x ∧
      (BBox.ofPoints pts).delta.y = (BBox.ofPoints pts).max.y - (BBox.ofPoints pts).min.y ∧
      (BBox.ofPoints pts).delta.z = (BBox.ofPoints pts).max.z - (BBox.ofPoints pts).min.z) := by
  constructor
  · intro h
    subst h
    simp [BBox.ofPoints, BBox.volume]
  · intro p rest h
    subst h
    obtain ⟨h1, h2, h3, h4, h5, h6⟩ := bbFold_foldl rest p p le_rfl le_rfl le_rfl
    refine ⟨h1, h2, h3, h4, h5, h6, rfl, rfl, rfl⟩

/-- Witness for C8 at concrete inputs: the empty vector and a two-point
vector. -/
theorem bbox_of_points_componentwise_witness :
    (BBox.ofPoints []).volume = 0 ∧
    (BBox.ofPoints [⟨1, 2, 3, -1⟩, ⟨0, 5, -1, -1⟩]).min.x =
      ([⟨0, 5, -1, -1⟩] : List Point).foldl (fun a q => Min.min a q.x) (1 : ℚ) ∧
    (BBox.ofPoints [⟨1, 2, 3, -1⟩, ⟨0, 5, -1, -1⟩]).max.y =
      ([⟨0, 5, -1, -1⟩] : List Point).foldl (fun a q => Max.max a q.y) (2 : ℚ) := by
  refine ⟨((bbox_of_points_componentwise []).1 rfl).2.2.2.2.2.2.2.2.2, ?_, ?_⟩
  · exact ((bbox_of_points_componentwise _).2 ⟨1, 2, 3, -1⟩ [⟨0, 5, -1, -1⟩] rfl).1
  · exact ((bbox_of_points_componentwise _).2 ⟨1, 2, 3, -1⟩ [⟨0, 5, -1, -1⟩] rfl).2.2.2.2.1

/-- C9: `p == q` holds iff each of the three coordinate differences is
at most machine epsilon, independently of either point's `clusterID`,
and `p != q` is its exact negation. -/
theorem point_operator_eq_componentwise (p q : Point) :
    (ptEq p q = true ↔
      |p.x - q.x| ≤ dblEpsilon ∧ |p.y - q.y| ≤ dblEpsilon ∧
        |p.z - q.z| ≤ dblEpsilon) ∧
    (∀ c c' : ℤ, ptEq { p with cID := c } { q with cID := c' } = ptEq p q) ∧
    ptNe p q = !ptEq p q := by
  refine ⟨?_, fun c c' => rfl, rfl⟩
  unfold ptEq
  simp [and_assoc]

/-! ## Octree

`Octree.hh`/`Octree.cc` are not part of the sources under `src/`;
the structure below is modelled from the spec (§3, §4.1): each node owns
an axis-aligned cube `(center, half-extent)`; leaves store (indices of)
points of an external array; internal nodes have exactly eight children
indexed by the sign of `p - center` per axis; a node subdivides when its
occupancy exceeds a configured threshold and its extent remains above a
minimum resolution; queries descend recursively, pruning children whose
cube does not intersect the query kernel's axis-aligned bounding
envelope, and test the exact kernel at leaves.

Recursion is expressed with an explicit depth counter; the wrapper
passes `⌈h / MIN_NODE_HALF_EXTENT⌉ + 1`, which exceeds the number of
possible halvings of the root half-extent before the minimum-resolution
guard stops subdivision, so the counter never runs out.  All correctness
theorems below hold for every value of the counter. -/

/-- Modelled from the spec: the octree's `MIN_NODE_HALF_EXTENT`
configuration constant (its value is not in the sources; any positive
value works, all theorems hold for the subdivision guard as such). -/
def minNodeHalfExtent : ℚ := 1 / 100

/-- An octree over indices into an external point array. -/
inductive Octree where
  | leaf (idxs : List ℕ)
  | node (center : Point) (half : ℚ)
      (k0 k1 k2 k3 k4 k5 k6 k7 : Octree)

/-- Octant of `p` relative to `center` (spec: children are indexed by
the sign of `(p - center)` per axis; ties go to the nonnegative side). -/
def octantIdx (c p : Point) : ℕ :=
  (if c.x ≤ p.x then 1 else 0) + (if c.y ≤ p.y then 2 else 0) +
    (if c.z ≤ p.z then 4 else 0)

/-- Center of the `k`-th child cube of the cube `(c, h)`. -/
def childCenter (c : Point) (h : ℚ) (k : ℕ) : Point :=
  ⟨c.x + (if k % 2 = 1 then h / 2 else -(h / 2)),
   c.y + (if k / 2 % 2 = 1 then h / 2 else -(h / 2)),
   c.z + (if k / 4 % 2 = 1 then h / 2 else -(h / 2)), cUnclassified⟩

/-- Membership of a point in the closed axis-aligned cube
`(center c, half-extent h)`. -/
def inCube (c : Point) (h : ℚ) (p : Point) : Prop :=
  |p.x - c.x| ≤ h ∧ |p.y - c.y| ≤ h ∧ |p.z - c.z| ≤ h

/-- Does the cube `(cc, hh)` intersect the axis-aligned bounding
envelope `[q - r, q + r]³` of a sphere query?  (Used to prune children
during the descent, per spec §4.1.) -/
def cubeMeetsAABB (cc : Point) (hh : ℚ) (q : Point) (r : ℚ) : Bool :=
  decide (cc.x - hh ≤ q.x + r ∧ q.x - r ≤ cc.x + hh ∧
    cc.y - hh ≤ q.y + r ∧ q.y - r ≤ cc.y + hh ∧
    cc.z - hh ≤ q.z + r ∧ q.z - r ≤ cc.z + hh)

/-- Recursive octree construction over a cube and a list of point
indices (depth-counted; see the section comment). -/
def buildO (fuel maxP : ℕ) (pts : List Point) (c : Point) (h : ℚ)
    (idxs : List ℕ) : Octree :=
  match fuel with
  | 0 => .leaf idxs
  | fuel + 1 =>
      if idxs.length ≤ maxP ∨ h ≤ minNodeHalfExtent then .leaf idxs
      else
        .node c h
          (buildO fuel maxP pts (childCenter c h 0) (h / 2)
            (idxs.filter (fun i => octantIdx c (pts.getD i noPt) == 0)))
          (buildO fuel maxP pts (childCenter c h 1) (h / 2)
            (idxs.filter (fun i => octantIdx c (pts.getD i noPt) == 1)))
          (buildO fuel maxP pts (childCenter c h 2) (h / 2)
            (idxs.filter (fun i => octantIdx c (pts.getD i noPt) == 2)))
          (buildO fuel maxP pts (childCenter c h 3) (h / 2)
            (idxs.filter (fun i => octantIdx c (pts.getD i noPt) == 3)))
          (buildO fuel maxP pts (childCenter c h 4) (h / 2)
            (idxs.filter (fun i => octantIdx c (pts.getD i noPt) == 4)))
          (buildO fuel maxP pts (childCenter c h 5) (h / 2)
            (idxs.filter (fun i => octantIdx c (pts.getD i noPt) == 5)))
          (buildO fuel maxP pts (childCenter c h 6) (h / 2)
            (idxs.filter (fun i => octantIdx c (pts.getD i noPt) == 6)))
          (buildO fuel maxP pts (childCenter c h 7) (h / 2)
            (idxs.filter (fun i => octantIdx c (pts.getD i noPt) == 7)))

/-- Depth budget for `buildO`: enough for all halvings of `h` above the
minimum resolution. -/
def buildFuel (h : ℚ) : ℕ := (h / minNodeHalfExtent).ceil.toNat + 1

/-- Center of the root cube: the middle of the array's bounding box. -/
def rootCenter (pts : List Point) : Point :=
  ⟨((BBox.ofPoints pts).min.x + (BBox.ofPoints pts).max.x) / 2,
   ((BBox.ofPoints pts).min.y + (BBox.ofPoints pts).max.y) / 2,
   ((BBox.ofPoints pts).min.z + (BBox.ofPoints pts).max.z) / 2, cUnclassified⟩

/-- Half-extent of the root cube: half the largest bounding-box side. -/
def rootHalf (pts : List Point) : ℚ :=
  Max.max (Max.max (BBox.ofPoints pts).delta.x (BBox.ofPoints pts).delta.y)
    (BBox.ofPoints pts).delta.z / 2

/-- `Octree(points)`: build the tree over the whole point array, with
the root cube derived from the array's bounding box. -/
def buildOctree (maxP : ℕ) (pts : List Point) : Octree :=
  buildO (buildFuel (rootHalf pts)) maxP pts (rootCenter pts) (rootHalf pts)
    (List.range pts.length)

/-- `Octree::searchNeighbors(center, radius, Kernel_t::sphere)`:
recursive descent with AABB pruning and exact sphere tests at leaves.
Returns indices into `pts` (the source returns pointers into the
array). -/
def searchO (pts : List Point) (q : Point) (r : ℚ) : Octree → List ℕ
  | .leaf idxs => idxs.filter (fun i => inSphere q r (pts.getD i noPt))
  | .node c h k0 k1 k2 k3 k4 k5 k6 k7 =>
      List.flatten
        [if cubeMeetsAABB (childCenter c h 0) (h / 2) q r then searchO pts q r k0 else [],
         if cubeMeetsAABB (childCenter c h 1) (h / 2) q r then searchO pts q r k1 else [],
         if cubeMeetsAABB (childCenter c h 2) (h / 2) q r then searchO pts q r k2 else [],
         if cubeMeetsAABB (childCenter c h 3) (h / 2) q r then searchO pts q r k3 else [],
         if cubeMeetsAABB (childCenter c h 4) (h / 2) q r then searchO pts q r k4 else [],
         if cubeMeetsAABB (childCenter c h 5) (h / 2) q r then searchO pts q r k5 else [],
         if cubeMeetsAABB (childCenter c h 6) (h / 2) q r then searchO pts q r k6 else [],
         if cubeMeetsAABB (childCenter c h 7) (h / 2) q r then searchO pts q r k7 else []]

/-- `searchNeighbors` on the tree built over the full array. -/
def searchNeighbors (maxP : ℕ) (pts : List Point) (q : Point) (r : ℚ) :
    List ℕ :=
  searchO pts q r (buildOctree maxP pts)

theorem sphere_axis_bounds {q p : Point} {r : ℚ} (h : inSphere q r p = true) :
    0 ≤ r ∧ |p.x - q.x| ≤ r ∧ |p.y - q.y| ≤ r ∧ |p.z - q.z| ≤ r := by
  unfold inSphere at h
  simp only [Bool.and_eq_true, decide_eq_true_eq] at h
  obtain ⟨hr, hd⟩ := h
  unfold distance2 at hd
  have n1 := mul_self_nonneg (p.x - q.x)
  have n2 := mul_self_nonneg (p.y - q.y)
  have n3 := mul_self_nonneg (p.z - q.z)
  refine ⟨hr, ?_, ?_, ?_⟩ <;> rw [abs_le] <;> constructor <;> nlinarith

theorem octantIdx_lt (c p : Point) : octantIdx c p < 8 := by
  unfold octantIdx
  split_ifs <;> norm_num

theorem inCube_child {c : Point} {h : ℚ} {p : Point} (hc : inCube c h p) :
    inCube (childCenter c h (octantIdx c p)) (h / 2) p := by
  obtain ⟨hx, hy, hz⟩ := hc
  rw [abs_le] at hx hy hz
  by_cases bx : c.x ≤ p.x <;> by_cases byy : c.y ≤ p.y <;> by_cases bz : c.z ≤ p.z <;>
    simp only [octantIdx, childCenter, bx, byy, bz, if_true, if_false] <;>
    norm_num <;>
    refine ⟨?_, ?_, ?_⟩ <;> rw [abs_le] <;> constructor <;>
    simp only [not_le] at bx byy bz ⊢ <;> linarith

theorem cubeMeets_of_inCube_inSphere {cc : Point} {hh : ℚ} {q p : Point} {r : ℚ}
    (h1 : inCube cc hh p) (h2 : inSphere q r p = true) :
    cubeMeetsAABB cc hh q r = true := by
  obtain ⟨ax, ay, az⟩ := h1
  rw [abs_le] at ax ay az
  obtain ⟨hr, bx, byy, bz⟩ := sphere_axis_bounds h2
  rw [abs_le] at bx byy bz
  unfold cubeMeetsAABB
  rw [decide_eq_true_eq]
  refine ⟨?_, ?_, ?_, ?_, ?_, ?_⟩ <;> linarith [ax.1, ax.2, ay.1, ay.2, az.1, az.2]

/-- Exactness of the octree sphere query, relative to the indices the
tree was built over: assuming all indexed points lie in the node's cube,
the query returns exactly the indices passing the sphere test. -/
theorem searchO_buildO_mem (pts : List Point) (q : Point) (r : ℚ) :
    ∀ (fuel maxP : ℕ) (c : Point) (h : ℚ) (idxs : List ℕ),
      (∀ j ∈ idxs, inCube c h (pts.getD j noPt)) →
      ∀ i, i ∈ searchO pts q r (buildO fuel maxP pts c h idxs) ↔
        i ∈ idxs ∧ inSphere q r (pts.getD i noPt) = true := by
  intro fuel
  induction fuel with
  | zero =>
      intro maxP c h idxs _ i
      simp [buildO, searchO, List.mem_filter]
  | succ fuel ih =>
      intro maxP c h idxs hcube i
      rw [buildO]
      by_cases hleaf : idxs.length ≤ maxP ∨ h ≤ minNodeHalfExtent
      · rw [if_pos hleaf]
        simp [searchO, List.mem_filter]
      · rw [if_neg hleaf]
        have hchild : ∀ k : ℕ,
            ∀ j ∈ idxs.filter (fun i => octantIdx c (pts.getD i noPt) == k),
              inCube (childCenter c h k) (h / 2) (pts.getD j noPt) := by
          intro k j hj
          rw [List.mem_filter, beq_iff_eq] at hj
          have := inCube_child (hcube j hj.1)
          rwa [hj.2] at this
        have hbr : ∀ k : ℕ,
            i ∈ (if cubeMeetsAABB (childCenter c h k) (h / 2) q r then
                searchO pts q r (buildO fuel maxP pts (childCenter c h k) (h / 2)
                  (idxs.filter (fun j => octantIdx c (pts.getD j noPt) == k)))
              else []) →
            i ∈ idxs ∧ inSphere q r (pts.getD i noPt) = true := by
          intro k hk
          split_ifs at hk with hp
          · obtain ⟨hF, hs⟩ := (ih maxP (childCenter c h k) (h / 2) _ (hchild k) i).mp hk
            exact ⟨List.mem_of_mem_filter hF, hs⟩
          · simp at hk
        constructor
        · intro hi
          simp only [searchO, List.mem_flatten, List.mem_cons, List.not_mem_nil,
            or_false] at hi
          obtain ⟨l, hl, hil⟩ := hi
          rcases hl with h' | h' | h' | h' | h' | h' | h' | h' <;>
            exact hbr _ (h' ▸ hil)
        · rintro ⟨hidx, hs⟩
          have hk8 := octantIdx_lt c (pts.getD i noPt)
          have hcc := inCube_child (hcube i hidx)
          have hprun := cubeMeets_of_inCube_inSphere hcc hs
          have hmemF : i ∈ idxs.filter
              (fun j => octantIdx c (pts.getD j noPt) == octantIdx c (pts.getD i noPt)) :=
            List.mem_filter.mpr ⟨hidx, by simp⟩
          have hin := (ih maxP (childCenter c h (octantIdx c (pts.getD i noPt))) (h / 2) _
            (hchild (octantIdx c (pts.getD i noPt))) i).mpr ⟨hmemF, hs⟩
          simp only [searchO]
          set k := octantIdx c (pts.getD i noPt) with hkdef
          interval_cases k <;>
          · rw [if_pos hprun]
            simp only [List.flatten_cons, List.flatten_nil, List.mem_append,
              List.append_nil]
            tauto

/-- The octree sphere query returns no duplicates (when built over
duplicate-free indices, all within the root cube). -/
theorem searchO_buildO_nodup (pts : List Point) (q : Point) (r : ℚ) :
    ∀ (fuel maxP : ℕ) (c : Point) (h : ℚ) (idxs : List ℕ),
      (∀ j ∈ idxs, inCube c h (pts.getD j noPt)) → idxs.Nodup →
      (searchO pts q r (buildO fuel maxP pts c h idxs)).Nodup := by
  intro fuel
  induction fuel with
  | zero =>
      intro maxP c h idxs _ hnd
      exact hnd.filter _
  | succ fuel ih =>
      intro maxP c h idxs hcube hnd
      rw [buildO]
      by_cases hleaf : idxs.length ≤ maxP ∨ h ≤ minNodeHalfExtent
      · rw [if_pos hleaf]
        exact hnd.filter _
      · rw [if_neg hleaf]
        have hchild : ∀ k : ℕ,
            ∀ j ∈ idxs.filter (fun i => octantIdx c (pts.getD i noPt) == k),
              inCube (childCenter c h k) (h / 2) (pts.getD j noPt) := by
          intro k j hj
          rw [List.mem_filter, beq_iff_eq] at hj
          have := inCube_child (hcube j hj.1)
          rwa [hj.2] at this
        have hoct : ∀ (k i : ℕ),
            i ∈ (if cubeMeetsAABB (childCenter c h k) (h / 2) q r then
                searchO pts q r (buildO fuel maxP pts (childCenter c h k) (h / 2)
                  (idxs.filter (fun j => octantIdx c (pts.getD j noPt) == k)))
              else []) →
            octantIdx c (pts.getD i noPt) = k := by
          intro k i hi
          split_ifs at hi with hp
          · have hm := ((searchO_buildO_mem pts q r fuel maxP _ _ _ (hchild k)) i).mp hi
            have h2 := List.mem_filter.mp hm.1
            exact beq_iff_eq.mp h2.2
          · simp at hi
        have hone : ∀ k : ℕ,
            (if cubeMeetsAABB (childCenter c h k) (h / 2) q r then
                searchO pts q r (buildO fuel maxP pts (childCenter c h k) (h / 2)
                  (idxs.filter (fun j => octantIdx c (pts.getD j noPt) == k)))
              else ([] : List ℕ)).Nodup := by
          intro k
          split_ifs with hp
          · exact ih maxP _ _ _ (hchild k) (hnd.filter _)
          · exact List.nodup_nil
        simp only [searchO]
        rw [List.nodup_flatten]
        constructor
        · intro l hl
          simp only [List.mem_cons, List.not_mem_nil, or_false] at hl
          rcases hl with h' | h' | h' | h' | h' | h' | h' | h' <;>
            (subst h'; exact hone _)
        · simp only [List.pairwise_cons, List.mem_cons, List.not_mem_nil, or_false,
            forall_eq_or_imp, forall_eq]
          repeat' apply And.intro
          all_goals first
            | exact List.Pairwise.nil
            | trivial
            | (intro i h1 h2
               first
                 | cases h1
                 | cases h2
                 | (have e1 := hoct _ _ h1
                    have e2 := hoct _ _ h2
                    omega))

theorem foldl_minf_bounds (f : Point → ℚ) (l : List Point) :
    ∀ v : ℚ, l.foldl (fun a q => Min.min a (f q)) v ≤ v ∧
      ∀ p ∈ l, l.foldl (fun a q => Min.min a (f q)) v ≤ f p := by
  induction l with
  | nil => intro v; exact ⟨le_rfl, by simp⟩
  | cons a rest ih =>
      intro v
      have h := ih (Min.min v (f a))
      refine ⟨h.1.trans (min_le_left _ _), ?_⟩
      intro b hb
      rcases List.mem_cons.mp hb with h' | h'
      · subst h'
        exact h.1.trans (min_le_right _ _)
      · exact h.2 b h'

theorem foldl_maxf_bounds (f : Point → ℚ) (l : List Point) :
    ∀ v : ℚ, v ≤ l.foldl (fun a q => Max.max a (f q)) v ∧
      ∀ p ∈ l, f p ≤ l.foldl (fun a q => Max.max a (f q)) v := by
  induction l with
  | nil => intro v; exact ⟨le_rfl, by simp⟩
  | cons a rest ih =>
      intro v
      have h := ih (Max.max v (f a))
      refine ⟨(le_max_left _ _).trans h.1, ?_⟩
      intro b hb
      rcases List.mem_cons.mp hb with h' | h'
      · subst h'
        exact (le_max_right _ _).trans h.1
      · exact h.2 b h'

/-- Every indexed point lies inside the root cube of `buildOctree`. -/
theorem root_cube_contains (pts : List Point) :
    ∀ j ∈ List.range pts.length,
      inCube (rootCenter pts) (rootHalf pts) (pts.getD j noPt) := by
  intro j hj
  rw [List.mem_range] at hj
  cases pts with
  | nil => simp at hj
  | cons p rest =>
      obtain ⟨h1, h2, h3, h4, h5, h6⟩ := bbFold_foldl rest p p le_rfl le_rfl le_rfl
      have hmem : (p :: rest).getD j noPt ∈ p :: rest := by
        rw [List.getD_eq_getElem _ _ hj]
        exact List.getElem_mem hj
      have e1 : (BBox.ofPoints (p :: rest)).min.x =
          rest.foldl (fun a q => Min.min a (Point.x q)) p.x := h1
      have e2 : (BBox.ofPoints (p :: rest)).min.y =
          rest.foldl (fun a q => Min.min a (Point.y q)) p.y := h2
      have e3 : (BBox.ofPoints (p :: rest)).min.z =
          rest.foldl (fun a q => Min.min a (Point.z q)) p.z := h3
      have e4 : (BBox.ofPoints (p :: rest)).max.x =
          rest.foldl (fun a q => Max.max a (Point.x q)) p.x := h4
      have e5 : (BBox.ofPoints (p :: rest)).max.y =
          rest.foldl (fun a q => Max.max a (Point.y q)) p.y := h5
      have e6 : (BBox.ofPoints (p :: rest)).max.z =
          rest.foldl (fun a q => Max.max a (Point.z q)) p.z := h6
      have hbx : (BBox.ofPoints (p :: rest)).min.x ≤ ((p :: rest).getD j noPt).x ∧
          ((p :: rest).getD j noPt).x ≤ (BBox.ofPoints (p :: rest)).max.x := by
        rw [e1, e4]
        rcases List.mem_cons.mp hmem with h' | h'
        · rw [h']
          exact ⟨(foldl_minf_bounds Point.x rest p.x).1, (foldl_maxf_bounds Point.x rest p.x).1⟩
        · exact ⟨(foldl_minf_bounds Point.x rest p.x).2 _ h',
            (foldl_maxf_bounds Point.x rest p.x).2 _ h'⟩
      have hby : (BBox.ofPoints (p :: rest)).min.y ≤ ((p :: rest).getD j noPt).y ∧
          ((p :: rest).getD j noPt).y ≤ (BBox.ofPoints (p :: rest)).max.y := by
        rw [e2, e5]
        rcases List.mem_cons.mp hmem with h' | h'
        · rw [h']
          exact ⟨(foldl_minf_bounds Point.y rest p.y).1, (foldl_maxf_bounds Point.y rest p.y).1⟩
        · exact ⟨(foldl_minf_bounds Point.y rest p.y).2 _ h',
            (foldl_maxf_bounds Point.y rest p.y).2 _ h'⟩
      have hbz : (BBox.ofPoints (p :: rest)).min.z ≤ ((p :: rest).getD j noPt).z ∧
          ((p :: rest).getD j noPt).z ≤ (BBox.ofPoints (p :: rest)).max.z := by
        rw [e3, e6]
        rcases List.mem_cons.mp hmem with h' | h'
        · rw [h']
          exact ⟨(foldl_minf_bounds Point.z rest p.z).1, (foldl_maxf_bounds Point.z rest p.z).1⟩
        · exact ⟨(foldl_minf_bounds Point.z rest p.z).2 _ h',
            (foldl_maxf_bounds Point.z rest p.z).2 _ h'⟩
      have hdx : (BBox.ofPoints (p :: rest)).delta.x =
          (BBox.ofPoints (p :: rest)).max.x - (BBox.ofPoints (p :: rest)).min.x := rfl
      have hdy : (BBox.ofPoints (p :: rest)).delta.y =
          (BBox.ofPoints (p :: rest)).max.y - (BBox.ofPoints (p :: rest)).min.y := rfl
      have hdz : (BBox.ofPoints (p :: rest)).delta.z =
          (BBox.ofPoints (p :: rest)).max.z - (BBox.ofPoints (p :: rest)).min.z := rfl
      have hHx : (BBox.ofPoints (p :: rest)).max.x - (BBox.ofPoints (p :: rest)).min.x ≤
          2 * rootHalf (p :: rest) := by
        unfold rootHalf
        rw [← hdx]
        have ha := le_max_left ((BBox.ofPoints (p :: rest)).delta.x)
          ((BBox.ofPoints (p :: rest)).delta.y)
        have hb := le_max_left
          (Max.max (BBox.ofPoints (p :: rest)).delta.x (BBox.ofPoints (p :: rest)).delta.y)
          ((BBox.ofPoints (p :: rest)).delta.z)
        linarith
      have hHy : (BBox.ofPoints (p :: rest)).max.y - (BBox.ofPoints (p :: rest)).min.y ≤
          2 * rootHalf (p :: rest) := by
        unfold rootHalf
        rw [← hdy]
        have ha := le_max_right ((BBox.ofPoints (p :: rest)).delta.x)
          ((BBox.ofPoints (p :: rest)).delta.y)
        have hb := le_max_left
          (Max.max (BBox.ofPoints (p :: rest)).delta.x (BBox.ofPoints (p :: rest)).delta.y)
          ((BBox.ofPoints (p :: rest)).delta.z)
        linarith
      have hHz : (BBox.ofPoints (p :: rest)).max.z - (BBox.ofPoints (p :: rest)).min.z ≤
          2 * rootHalf (p :: rest) := by
        unfold rootHalf
        rw [← hdz]
        have hb := le_max_right
          (Max.max (BBox.ofPoints (p :: rest)).delta.x (BBox.ofPoints (p :: rest)).delta.y)
          ((BBox.ofPoints (p :: rest)).delta.z)
        linarith
      unfold inCube rootCenter
      refine ⟨?_, ?_, ?_⟩ <;> rw [abs_le] <;> constructor <;>
        simp only [] <;>
        linarith [hbx.1, hbx.2, hby.1, hby.2, hbz.1, hbz.2]

/-- C1: For every point array `P`, center `c` and radius `r`, the
octree's `searchNeighbors(c, r, sphere)` returns exactly the set of
points of `P` at Euclidean distance at most `r` from `c` — the same set
a linear scan over `P` produces — with no duplicates, no point missing
and no extra point.  (The octree implementation is not under `src/`;
it is modelled from spec §4.1.) -/
theorem octree_search_matches_linear_scan (maxP : ℕ) (pts : List Point)
    (q : Point) (r : ℚ) :
    (searchNeighbors maxP pts q r).Nodup ∧
    (∀ i, i ∈ searchNeighbors maxP pts q r ↔
      i ∈ (List.range pts.length).filter (fun j => inSphere q r (pts.getD j noPt))) ∧
    (∀ i, i ∈ searchNeighbors maxP pts q r ↔
      i < pts.length ∧ inSphereR q r (pts.getD i noPt)) := by
  have hmem := searchO_buildO_mem pts q r (buildFuel (rootHalf pts)) maxP
    (rootCenter pts) (rootHalf pts) (List.range pts.length) (root_cube_contains pts)
  have hnd := searchO_buildO_nodup pts q r (buildFuel (rootHalf pts)) maxP
    (rootCenter pts) (rootHalf pts) (List.range pts.length) (root_cube_contains pts)
    (List.nodup_range _)
  refine ⟨hnd, ?_, ?_⟩
  · intro i
    rw [List.mem_filter]
    exact hmem i
  · intro i
    refine Iff.trans (hmem i) ?_
    rw [List.mem_range, inSphere_iff_inSphereR]

/-! ## Spatial DBSCAN (`DBScan.cc`)

The configuration constants live in `app/config.h`, which is not under
`src/`; they are taken as parameters (the spec lists them as tunable,
§6).  The worklist loop of `expandCluster` is expressed with an explicit
step counter; the wrapper passes `2·(#unclassified points) + |queue| + 1`,
which strictly exceeds the number of loop iterations (each iteration
consumes one queue entry, and entries are only appended when a point
flips from `Unclassified` to the cluster id, which can happen at most
once per point) — see `expandLoop_fuel_sufficient`. -/

/-- Spatial-clustering configuration constants from `config.h`
(not under `src/`; parameters per spec §6). -/
structure DBParams where
  clusterPointProximity : ℚ
  minClusterPoints : ℕ
  maxPointsPerLeaf : ℕ
  deriving DecidableEq, Repr

/-- Number of points still tagged `Unclassified`. -/
def unclassifiedCount (st : List Point) : ℕ :=
  st.countP (fun p => decide (p.cID = cUnclassified))

namespace DBScan

/-- `DBScan::centroidNeighbours`: query the octree sphere kernel around
`centroid`; return the total neighbour count and the indices of the
neighbours whose current cluster tag is negative. -/
def centroidNeighbours (prm : DBParams) (map : Octree) (centroid : Point)
    (points : List Point) : ℕ × List ℕ :=
  let neighbourPoints := searchO points centroid prm.clusterPointProximity map
  (neighbourPoints.length,
    neighbourPoints.filter (fun i => decide ((points.getD i noPt).cID < 0)))

/-- The inner absorption loop of `expandCluster` (lines 68-76): for each
neighbour index, enqueue it if still `Unclassified`, tag it with the
cluster id, and append it to the cluster's index list. -/
def absorb (cid : ℕ) : List ℕ → List Point → List ℕ → List ℕ →
    List Point × List ℕ × List ℕ
  | [], st, queue, cp => (st, queue, cp)
  | j :: rest, st, queue, cp =>
      let queue' := if (st.getD j noPt).cID = cUnclassified then queue ++ [j] else queue
      absorb cid rest (setCID st j (cid : ℤ)) queue' (cp ++ [j])

/-- The seed-expansion worklist of `expandCluster` (lines 63-78),
processed in FIFO order; `C++` uses a growing vector with a moving
cursor, which is the same traversal. -/
def expandLoop (prm : DBParams) (map : Octree) (cid : ℕ) :
    ℕ → List Point → List ℕ → List ℕ → List Point × List ℕ
  | 0, st, _, cp => (st, cp)
  | fuel + 1, st, queue, cp =>
      match queue with
      | [] => (st, cp)
      | s :: qrest =>
          let nb := centroidNeighbours prm map (st.getD s noPt) st
          if prm.minClusterPoints ≤ nb.1 then
            let r := absorb cid nb.2 st qrest cp
            expandLoop prm map cid fuel r.1 r.2.1 r.2.2
          else
            expandLoop prm map cid fuel st qrest cp

/-- Step budget for `expandLoop` (strictly larger than the number of
iterations; see the section comment). -/
def expandFuel (st : List Point) (queue : List ℕ) : ℕ :=
  2 * unclassifiedCount st + queue.length + 1

/-- The running `indexCorePoint` of `expandCluster` (lines 52-59): the
position in `seeds` of the last element `ε`-equal to the centroid
(`0` if none matches). -/
def indexCorePointOf (seeds : List ℕ) (points : List Point)
    (centroid : Point) : ℕ :=
  (List.range seeds.length).foldl
    (fun acc k =>
      if ptEq (points.getD (seeds.getD k 0) noPt) centroid then k else acc) 0

/-- `DBScan::expandCluster`.  Returns the success flag, the cluster's
index list and the updated point buffer. -/
def expandCluster (prm : DBParams) (map : Octree) (points : List Point)
    (centroidIdx : ℕ) (cid : ℕ) : Bool × List ℕ × List Point :=
  let centroid := points.getD centroidIdx noPt
  let clusterSeeds := centroidNeighbours prm map centroid points
  if clusterSeeds.2.length < prm.minClusterPoints then
    (false, [], setCID points centroidIdx cNoise)
  else
    let clusterPoints := clusterSeeds.2
    let pts1 := clusterSeeds.2.foldl (fun st i => setCID st i (cid : ℤ)) points
    let indexCorePoint := indexCorePointOf clusterSeeds.2 pts1 centroid
    let queue := clusterSeeds.2.eraseIdx indexCorePoint
    let out := expandLoop prm map cid (expandFuel pts1 queue) pts1 queue clusterPoints
    (true, out.2, out.1)

/-- One iteration of the `DBScan::clusters` loop: expand a cluster from
point `i` when it is still `Unclassified`; on success push the cluster
and advance the running cluster id. -/
def clustersStep (prm : DBParams) (map : Octree)
    (acc : ℕ × List (List ℕ) × List Point) (i : ℕ) :
    ℕ × List (List ℕ) × List Point :=
  if (acc.2.2.getD i noPt).cID = cUnclassified then
    let expansion := expandCluster prm map acc.2.2 i acc.1
    if expansion.1 then (acc.1 + 1, acc.2.1 ++ [expansion.2.1], expansion.2.2)
    else (acc.1, acc.2.1, expansion.2.2)
  else acc

/-- `DBScan::clusters`: iterate the points in array order, expanding a
fresh cluster from every still-`Unclassified` point.  Returns the list
of clusters (index lists into the buffer) and the final point buffer
(the C++ mutates the buffer in place). -/
def clusters (prm : DBParams) (points : List Point) :
    List (List ℕ) × List Point :=
  let map := buildOctree prm.maxPointsPerLeaf points
  let acc := (List.range points.length).foldl (clustersStep prm map)
    (0, [], points)
  (acc.2.1, acc.2.2)

end DBScan

theorem setCID_length (pts : List Point) (i : ℕ) (c : ℤ) :
    (setCID pts i c).length = pts.length :=
  List.length_set pts i _

theorem getD_setCID_self {pts : List Point} {i : ℕ} (c : ℤ) (h : i < pts.length) :
    (setCID pts i c).getD i noPt = { pts.getD i noPt with cID := c } := by
  unfold setCID
  rw [List.getD_eq_getElem?_getD, List.getElem?_set_self (by simpa using h)]
  rfl

theorem getD_setCID_other {pts : List Point} {i j : ℕ} (c : ℤ) (h : j ≠ i) :
    (setCID pts i c).getD j noPt = pts.getD j noPt := by
  unfold setCID
  rw [List.getD_eq_getElem?_getD, List.getElem?_set_ne (by omega),
    ← List.getD_eq_getElem?_getD]

theorem setCID_oob {pts : List Point} {i : ℕ} (c : ℤ) (h : pts.length ≤ i) :
    setCID pts i c = pts :=
  List.set_eq_of_length_le h

theorem getD_setCID_weak (pts : List Point) (i j : ℕ) (c : ℤ) :
    (setCID pts i c).getD j noPt = pts.getD j noPt ∨
      (setCID pts i c).getD j noPt = { pts.getD j noPt with cID := c } := by
  by_cases hij : j = i
  · subst hij
    by_cases hlen : j < pts.length
    · exact Or.inr (getD_setCID_self c hlen)
    · rw [setCID_oob c (le_of_not_lt hlen)]
      exact Or.inl rfl
  · exact Or.inl (getD_setCID_other c hij)

namespace DBScan

theorem absorb_length (cid : ℕ) (js : List ℕ) :
    ∀ (st : List Point) (queue cp : List ℕ),
      (absorb cid js st queue cp).1.length = st.length := by
  induction js with
  | nil => intro st queue cp; rfl
  | cons j rest ih =>
      intro st queue cp
      rw [absorb]
      rw [ih, setCID_length]

theorem absorb_cp (cid : ℕ) (js : List ℕ) :
    ∀ (st : List Point) (queue cp : List ℕ),
      (absorb cid js st queue cp).2.2 = cp ++ js := by
  induction js with
  | nil => intro st queue cp; simp [absorb]
  | cons j rest ih =>
      intro st queue cp
      rw [absorb, ih]
      simp

theorem absorb_getD_weak (cid : ℕ) (js : List ℕ) :
    ∀ (st : List Point) (queue cp : List ℕ) (j : ℕ),
      (absorb cid js st queue cp).1.getD j noPt = st.getD j noPt ∨
        (absorb cid js st queue cp).1.getD j noPt =
          { st.getD j noPt with cID := (cid : ℤ) } := by
  induction js with
  | nil => intro st queue cp j; exact Or.inl rfl
  | cons j0 rest ih =>
      intro st queue cp j
      rw [absorb]
      rcases ih (setCID st j0 (cid : ℤ)) _ _ j with h' | h' <;>
        rcases getD_setCID_weak st j0 j (cid : ℤ) with h'' | h''
      · exact Or.inl (h'.trans h'')
      · exact Or.inr (h'.trans h'')
      · exact Or.inr (by rw [h', h''])
      · exact Or.inr (by rw [h', h''])

theorem foldlSet_getD_weak (cid : ℕ) (js : List ℕ) :
    ∀ (st : List Point) (j : ℕ),
      (js.foldl (fun st i => setCID st i (cid : ℤ)) st).getD j noPt = st.getD j noPt ∨
        (js.foldl (fun st i => setCID st i (cid : ℤ)) st).getD j noPt =
          { st.getD j noPt with cID := (cid : ℤ) } := by
  induction js with
  | nil => intro st j; exact Or.inl rfl
  | cons j0 rest ih =>
      intro st j
      rw [List.foldl_cons]
      rcases ih (setCID st j0 (cid : ℤ)) j with h' | h' <;>
        rcases getD_setCID_weak st j0 j (cid : ℤ) with h'' | h''
      · exact Or.inl (h'.trans h'')
      · exact Or.inr (h'.trans h'')
      · exact Or.inr (by rw [h', h''])
      · exact Or.inr (by rw [h', h''])

theorem foldlSet_length (cid : ℕ) (js : List ℕ) :
    ∀ st : List Point,
      (js.foldl (fun st i => setCID st i (cid : ℤ)) st).length = st.length := by
  induction js with
  | nil => intro st; rfl
  | cons j0 rest ih =>
      intro st
      rw [List.foldl_cons, ih, setCID_length]

theorem expandLoop_length (prm : DBParams) (map : Octree) (cid : ℕ) :
    ∀ (fuel : ℕ) (st : List Point) (queue cp : List ℕ),
      (expandLoop prm map cid fuel st queue cp).1.length = st.length := by
  intro fuel
  induction fuel with
  | zero => intro st queue cp; rfl
  | succ fuel ih =>
      intro st queue cp
      cases queue with
      | nil => rw [expandLoop]
      | cons s qrest =>
          rw [expandLoop]
          split
          · rw [ih, absorb_length]
          · rw [ih]

theorem expandLoop_getD_weak (prm : DBParams) (map : Octree) (cid : ℕ) :
    ∀ (fuel : ℕ) (st : List Point) (queue cp : List ℕ) (j : ℕ),
      (expandLoop prm map cid fuel st queue cp).1.getD j noPt = st.getD j noPt ∨
        (expandLoop prm map cid fuel st queue cp).1.getD j noPt =
          { st.getD j noPt with cID := (cid : ℤ) } := by
  intro fuel
  induction fuel with
  | zero => intro st queue cp j; exact Or.inl rfl
  | succ fuel ih =>
      intro st queue cp j
      cases queue with
      | nil =>
          rw [expandLoop]
          exact Or.inl rfl
      | cons s qrest =>
          rw [expandLoop]
          split
          · rcases ih (absorb cid (centroidNeighbours prm map (st.getD s noPt) st).2 st
                qrest cp).1 _ _ j with h' | h' <;>
              rcases absorb_getD_weak cid
                (centroidNeighbours prm map (st.getD s noPt) st).2 st qrest cp j with h'' | h''
            · exact Or.inl (h'.trans h'')
            · exact Or.inr (h'.trans h'')
            · exact Or.inr (by rw [h', h''])
            · exact Or.inr (by rw [h', h''])
          · exact ih st qrest cp j

end DBScan

theorem length_eq_of_nodup_of_mem_iff {l1 l2 : List ℕ} (h1 : l1.Nodup)
    (h2 : l2.Nodup) (hm : ∀ x, x ∈ l1 ↔ x ∈ l2) : l1.length = l2.length := by
  rw [← List.toFinset_card_of_nodup h1, ← List.toFinset_card_of_nodup h2]
  congr 1
  ext x
  simp [hm x]

/-- The filtered seed list of `centroidNeighbours` (over the octree of
the full array) has the same length as the linear-scan count of
sphere neighbours with a negative cluster tag. -/
theorem centroidNeighbours_seeds_length (prm : DBParams) (points : List Point)
    (centroid : Point) :
    (DBScan.centroidNeighbours prm (buildOctree prm.maxPointsPerLeaf points)
        centroid points).2.length =
      ((List.range points.length).filter (fun j =>
        inSphere centroid prm.clusterPointProximity (points.getD j noPt) &&
          decide ((points.getD j noPt).cID < 0))).length := by
  have hmem := searchO_buildO_mem points centroid prm.clusterPointProximity
    (buildFuel (rootHalf points)) prm.maxPointsPerLeaf (rootCenter points)
    (rootHalf points) (List.range points.length) (root_cube_contains points)
  have hnd := searchO_buildO_nodup points centroid prm.clusterPointProximity
    (buildFuel (rootHalf points)) prm.maxPointsPerLeaf (rootCenter points)
    (rootHalf points) (List.range points.length) (root_cube_contains points)
    (List.nodup_range _)
  apply length_eq_of_nodup_of_mem_iff
  · exact hnd.filter _
  · exact (List.nodup_range _).filter _
  · intro x
    unfold DBScan.centroidNeighbours
    simp only [List.mem_filter]
    rw [show buildOctree prm.maxPointsPerLeaf points =
      buildO (buildFuel (rootHalf points)) prm.maxPointsPerLeaf points
        (rootCenter points) (rootHalf points) (List.range points.length) from rfl]
    rw [hmem x]
    simp only [Bool.and_eq_true]
    tauto

/-- C3 (amended): a fresh (`Unclassified`) centroid is marked `Noise` by
`expandCluster` iff the sphere of radius `CLUSTER_POINT_PROXIMITY`
around it contains fewer than `MIN_CLUSTER_POINTS` points *whose current
cluster tag is negative* (not-yet-clustered points); points already
assigned to a cluster are not counted. -/
theorem dbscan_centroid_noise_iff_negative_tagged_count (prm : DBParams)
    (points : List Point) (centroidIdx cid : ℕ)
    (hlt : centroidIdx < points.length)
    (hfresh : (points.getD centroidIdx noPt).cID = cUnclassified) :
    (((DBScan.expandCluster prm (buildOctree prm.maxPointsPerLeaf points) points
        centroidIdx cid).2.2.getD centroidIdx noPt).cID = cNoise ↔
      ((List.range points.length).filter (fun j =>
        inSphere (points.getD centroidIdx noPt) prm.clusterPointProximity
            (points.getD j noPt) &&
          decide ((points.getD j noPt).cID < 0))).length < prm.minClusterPoints) := by
  have hcount := centroidNeighbours_seeds_length prm points (points.getD centroidIdx noPt)
  rw [DBScan.expandCluster]
  by_cases hb : (DBScan.centroidNeighbours prm (buildOctree prm.maxPointsPerLeaf points)
      (points.getD centroidIdx noPt) points).2.length < prm.minClusterPoints
  · rw [if_pos hb]
    simp only []
    rw [getD_setCID_self cNoise hlt]
    exact ⟨fun _ => hcount ▸ hb, fun _ => rfl⟩
  · rw [if_neg hb]
    simp only []
    constructor
    · intro hnoise
      exfalso
      rcases DBScan.expandLoop_getD_weak prm
          (buildOctree prm.maxPointsPerLeaf points) cid _ _ _ _ centroidIdx with h' | h' <;>
        rcases DBScan.foldlSet_getD_weak cid
          (DBScan.centroidNeighbours prm (buildOctree prm.maxPointsPerLeaf points)
            (points.getD centroidIdx noPt) points).2 points centroidIdx with h'' | h''
      · rw [h', h''] at hnoise
        rw [hfresh] at hnoise
        norm_num [cUnclassified, cNoise] at hnoise
      · rw [h', h''] at hnoise
        simp only [cNoise] at hnoise
        omega
      · rw [h', h''] at hnoise
        simp only [cNoise] at hnoise
        omega
      · rw [h', h''] at hnoise
        simp only [cNoise] at hnoise
        omega
    · intro hcnt
      exact absurd (hcount ▸ hcnt) hb

/-- Configuration used by the concrete refutation runs:
`CLUSTER_POINT_PROXIMITY = 10`, `MIN_CLUSTER_POINTS = 4`. -/
def prm13 : DBParams := ⟨10, 4, 100⟩

/-- Thirteen fresh points in the `z = 0` plane: three 4-point clusters
(each an `a` core with satellites) and a last point `p12 = (0,0,0)`
whose 10-sphere contains exactly the three already-clustered satellites
`p1, p5, p9` and itself. -/
def pts13 : List Point :=
  [⟨18, 0, 0, -1⟩, ⟨8, 0, 0, -1⟩, ⟨26, 0, 0, -1⟩, ⟨18, 8, 0, -1⟩,
   ⟨-18, 0, 0, -1⟩, ⟨-8, 0, 0, -1⟩, ⟨-26, 0, 0, -1⟩, ⟨-18, 8, 0, -1⟩,
   ⟨0, 18, 0, -1⟩, ⟨0, 8, 0, -1⟩, ⟨0, 26, 0, -1⟩, ⟨8, 18, 0, -1⟩,
   ⟨0, 0, 0, -1⟩]

/-- Counterexample to C3 as stated: in a run of `DBScan::clusters` on a
fresh array, the point at index 12 is processed as a fresh centroid and
marked `Noise`, although the sphere of radius `CLUSTER_POINT_PROXIMITY`
around it contains `4 = MIN_CLUSTER_POINTS` points of the input array
(itself plus three points already absorbed into clusters, which the
code's `clusterSeeds.second.size()` test does not count). -/
theorem noise_despite_enough_sphere_points_counterexample :
    (∀ p ∈ pts13, p.cID = cUnclassified) ∧
    prm13.minClusterPoints = 4 ∧
    ((List.range pts13.length).filter (fun j =>
      inSphere (pts13.getD 12 noPt) prm13.clusterPointProximity
        (pts13.getD j noPt))).length = 4 ∧
    ((DBScan.clusters prm13 pts13).2.getD 12 noPt).cID = cNoise := by
  decide!

/-- Tiny fresh instance for the C3 witness: a single point forms no
cluster and is marked noise. -/
def ptsW : List Point := [⟨0, 0, 0, -1⟩]

/-- Parameters for the C3 witness. -/
def prmW : DBParams := ⟨1, 2, 100⟩

/-- Witness for the amended C3 at a concrete input. -/
theorem dbscan_centroid_noise_iff_negative_tagged_count_witness :
    (0 < ptsW.length ∧ (ptsW.getD 0 noPt).cID = cUnclassified) ∧
    (((DBScan.expandCluster prmW (buildOctree prmW.maxPointsPerLeaf ptsW) ptsW
        0 0).2.2.getD 0 noPt).cID = cNoise ↔
      ((List.range ptsW.length).filter (fun j =>
        inSphere (ptsW.getD 0 noPt) prmW.clusterPointProximity
            (ptsW.getD j noPt) &&
          decide ((ptsW.getD j noPt).cID < 0))).length < prmW.minClusterPoints) :=
  ⟨⟨by decide, by decide⟩,
    dbscan_centroid_noise_iff_negative_tagged_count prmW ptsW 0 0 (by decide)
      (by decide)⟩

/-- Counterexample to C2 as stated: on an input whose single point
carries the (transitional) `cCorePoint` tag, `DBScan::clusters` skips
the point entirely; it returns no cluster and the point keeps the final
clusterID `cCorePoint`, which C2 asserts can never be a final state. -/
theorem clusters_pretagged_point_counterexample :
    (DBScan.clusters ⟨10, 1, 100⟩ [(⟨0, 0, 0, cCorePoint⟩ : Point)]).1 = [] ∧
    ((DBScan.clusters ⟨10, 1, 100⟩ [(⟨0, 0, 0, cCorePoint⟩ : Point)]).2.getD 0
      noPt).cID = cCorePoint := by
  decide!

/-- All indices stored in an octree, leaf order. -/
def Octree.elems : Octree → List ℕ
  | .leaf idxs => idxs
  | .node _ _ k0 k1 k2 k3 k4 k5 k6 k7 =>
      List.flatten [k0.elems, k1.elems, k2.elems, k3.elems, k4.elems,
        k5.elems, k6.elems, k7.elems]

/-- A sphere query returns a sublist of the stored indices (whatever
point buffer the leaf tests read from). -/
theorem searchO_sublist_elems (pts : List Point) (q : Point) (r : ℚ) :
    ∀ t : Octree, (searchO pts q r t).Sublist t.elems := by
  intro t
  induction t with
  | leaf idxs => exact List.filter_sublist idxs
  | node c h k0 k1 k2 k3 k4 k5 k6 k7 ih0 ih1 ih2 ih3 ih4 ih5 ih6 ih7 =>
      simp only [searchO, Octree.elems, List.flatten_cons, List.flatten_nil,
        List.append_nil]
      refine List.Sublist.append ?_ ?_
      · split
        · exact ih0
        · exact List.nil_sublist _
      refine List.Sublist.append ?_ ?_
      · split
        · exact ih1
        · exact List.nil_sublist _
      refine List.Sublist.append ?_ ?_
      · split
        · exact ih2
        · exact List.nil_sublist _
      refine List.Sublist.append ?_ ?_
      · split
        · exact ih3
        · exact List.nil_sublist _
      refine List.Sublist.append ?_ ?_
      · split
        · exact ih4
        · exact List.nil_sublist _
      refine List.Sublist.append ?_ ?_
      · split
        · exact ih5
        · exact List.nil_sublist _
      refine List.Sublist.append ?_ ?_
      · split
        · exact ih6
        · exact List.nil_sublist _
      split
      · exact ih7
      · exact List.nil_sublist _

/-- The tree stores only indices it was built over. -/
theorem buildO_elems_subset (pts : List Point) :
    ∀ (fuel maxP : ℕ) (c : Point) (h : ℚ) (idxs : List ℕ),
      ∀ i ∈ (buildO fuel maxP pts c h idxs).elems, i ∈ idxs := by
  intro fuel
  induction fuel with
  | zero => intro maxP c h idxs i hi; exact hi
  | succ fuel ih =>
      intro maxP c h idxs i hi
      rw [buildO] at hi
      by_cases hleaf : idxs.length ≤ maxP ∨ h ≤ minNodeHalfExtent
      · rw [if_pos hleaf] at hi
        exact hi
      · rw [if_neg hleaf] at hi
        simp only [Octree.elems, List.mem_flatten, List.mem_cons,
          List.not_mem_nil, or_false] at hi
        obtain ⟨l, hl, hil⟩ := hi
        rcases hl with h' | h' | h' | h' | h' | h' | h' | h' <;>
          (subst h'; exact List.mem_of_mem_filter (ih _ _ _ _ _ hil))

/-- The tree stores each index at most once (octants partition). -/
theorem buildO_elems_nodup (pts : List Point) :
    ∀ (fuel maxP : ℕ) (c : Point) (h : ℚ) (idxs : List ℕ), idxs.Nodup →
      (buildO fuel maxP pts c h idxs).elems.Nodup := by
  intro fuel
  induction fuel with
  | zero => intro maxP c h idxs hnd; exact hnd
  | succ fuel ih =>
      intro maxP c h idxs hnd
      rw [buildO]
      by_cases hleaf : idxs.length ≤ maxP ∨ h ≤ minNodeHalfExtent
      · rw [if_pos hleaf]
        exact hnd
      · rw [if_neg hleaf]
        have hoct : ∀ (k i : ℕ),
            i ∈ (buildO fuel maxP pts (childCenter c h k) (h / 2)
              (idxs.filter (fun j => octantIdx c (pts.getD j noPt) == k))).elems →
            octantIdx c (pts.getD i noPt) = k := by
          intro k i hi
          have := buildO_elems_subset pts fuel maxP _ _ _ i hi
          rw [List.mem_filter, beq_iff_eq] at this
          exact this.2
        simp only [Octree.elems]
        rw [List.nodup_flatten]
        constructor
        · intro l hl
          simp only [List.mem_cons, List.not_mem_nil, or_false] at hl
          rcases hl with h' | h' | h' | h' | h' | h' | h' | h' <;>
            (subst h'; exact ih _ _ _ _ (hnd.filter _))
        · simp only [List.pairwise_cons, List.mem_cons, List.not_mem_nil, or_false,
            forall_eq_or_imp, forall_eq]
          repeat' apply And.intro
          all_goals first
            | exact List.Pairwise.nil
            | trivial
            | (intro i h1 h2
               first
                 | cases h1
                 | cases h2
                 | (have e1 := hoct _ _ h1
                    have e2 := hoct _ _ h2
                    omega))

/-- Coordinate-equality of two buffers (position by position, via
`getD`). -/
def coordsAgree (pts1 pts2 : List Point) : Prop :=
  ∀ j : ℕ, (pts1.getD j noPt).x = (pts2.getD j noPt).x ∧
    (pts1.getD j noPt).y = (pts2.getD j noPt).y ∧
    (pts1.getD j noPt).z = (pts2.getD j noPt).z

/-- Sphere queries only read coordinates, so they agree on buffers that
agree on coordinates. -/
theorem searchO_congr {pts1 pts2 : List Point} (q : Point) (r : ℚ)
    (hc : coordsAgree pts1 pts2) :
    ∀ t : Octree, searchO pts1 q r t = searchO pts2 q r t := by
  intro t
  induction t with
  | leaf idxs =>
      simp only [searchO]
      apply List.filter_congr
      intro i _
      obtain ⟨hx, hy, hz⟩ := hc i
      unfold inSphere distance2
      rw [hx, hy, hz]
  | node c h k0 k1 k2 k3 k4 k5 k6 k7 ih0 ih1 ih2 ih3 ih4 ih5 ih6 ih7 =>
      simp only [searchO, ih0, ih1, ih2, ih3, ih4, ih5, ih6, ih7]

namespace DBScan

theorem foldlSet_strong (cid : ℕ) :
    ∀ (js : List ℕ) (st : List Point), js.Nodup →
      (∀ j, j ∉ js →
        (js.foldl (fun st i => setCID st i (cid : ℤ)) st).getD j noPt =
          st.getD j noPt) ∧
      (∀ j ∈ js, j < st.length →
        (js.foldl (fun st i => setCID st i (cid : ℤ)) st).getD j noPt =
          { st.getD j noPt with cID := (cid : ℤ) }) := by
  intro js
  induction js with
  | nil => intro st _; exact ⟨fun j _ => rfl, fun j hj => absurd hj (List.not_mem_nil j)⟩
  | cons j0 rest ih =>
      intro st hnd
      rw [List.nodup_cons] at hnd
      obtain ⟨hj0, hndr⟩ := hnd
      have hIH := ih (setCID st j0 (cid : ℤ)) hndr
      constructor
      · intro j hj
        rw [List.mem_cons, not_or] at hj
        rw [List.foldl_cons, hIH.1 j hj.2, getD_setCID_other _ hj.1]
      · intro j hj hlen
        rw [List.foldl_cons]
        rcases List.mem_cons.mp hj with h' | h'
        · subst h'
          rw [hIH.1 j hj0, getD_setCID_self _ hlen]
        · have hne : j ≠ j0 := fun he => hj0 (he ▸ h')
          rw [hIH.2 j h' (by rw [setCID_length]; exact hlen),
            getD_setCID_other _ hne]

theorem absorb_st_eq (cid : ℕ) :
    ∀ (js : List ℕ) (st : List Point) (queue cp : List ℕ),
      (absorb cid js st queue cp).1 =
        js.foldl (fun st i => setCID st i (cid : ℤ)) st := by
  intro js
  induction js with
  | nil => intro st queue cp; rfl
  | cons j0 rest ih =>
      intro st queue cp
      rw [absorb, List.foldl_cons, ih]

theorem absorb_queue_subset (cid : ℕ) :
    ∀ (js : List ℕ) (st : List Point) (queue cp : List ℕ) (i : ℕ),
      i ∈ (absorb cid js st queue cp).2.1 → i ∈ queue ∨ i ∈ js := by
  intro js
  induction js with
  | nil => intro st queue cp i hi; exact Or.inl hi
  | cons j0 rest ih =>
      intro st queue cp i hi
      rw [absorb] at hi
      rcases ih _ _ _ i hi with h' | h'
      · split at h'
        · rcases List.mem_append.mp h' with h'' | h''
          · exact Or.inl h''
          · exact Or.inr (List.mem_cons.mpr (Or.inl (List.mem_singleton.mp h'')))
        · exact Or.inl h'
      · exact Or.inr (List.mem_cons_of_mem _ h')

/-- Main postcondition of the seed-expansion worklist: the cluster's
index list only grows, all its members are valid indices tagged with the
cluster id, it stays duplicate-free, and every point is either untouched
or was negative-tagged and is now tagged with the cluster id and listed
in the cluster. -/
theorem expandLoop_post (prm : DBParams) (map : Octree) (cid : ℕ)
    (hmapnd : map.elems.Nodup) :
    ∀ (fuel : ℕ) (st : List Point) (queue cp : List ℕ),
      (∀ i ∈ map.elems, i < st.length) →
      (∀ i ∈ cp, i < st.length ∧ (st.getD i noPt).cID = (cid : ℤ)) →
      cp.Nodup →
      (∀ i ∈ queue, i ∈ cp) →
      (∀ i ∈ cp, i ∈ (expandLoop prm map cid fuel st queue cp).2) ∧
      (∀ i ∈ (expandLoop prm map cid fuel st queue cp).2,
        i < st.length ∧
        (((expandLoop prm map cid fuel st queue cp).1.getD i noPt).cID = (cid : ℤ))) ∧
      (expandLoop prm map cid fuel st queue cp).2.Nodup ∧
      (∀ j, (expandLoop prm map cid fuel st queue cp).1.getD j noPt = st.getD j noPt ∨
        ((st.getD j noPt).cID < 0 ∧
          (expandLoop prm map cid fuel st queue cp).1.getD j noPt =
            { st.getD j noPt with cID := (cid : ℤ) } ∧
          j ∈ (expandLoop prm map cid fuel st queue cp).2)) := by
  intro fuel
  induction fuel with
  | zero =>
      intro st queue cp hvalid hcp hnd hq
      exact ⟨fun i hi => hi, fun i hi => hcp i hi, hnd, fun j => Or.inl rfl⟩
  | succ fuel ih =>
      intro st queue cp hvalid hcp hnd hq
      cases queue with
      | nil =>
          rw [expandLoop]
          exact ⟨fun i hi => hi, fun i hi => hcp i hi, hnd, fun j => Or.inl rfl⟩
      | cons s qrest =>
          rw [expandLoop]
          split
          · -- absorb branch
            set js := (centroidNeighbours prm map (st.getD s noPt) st).2 with hjsdef
            have hjs_search : ∀ j ∈ js, j ∈ searchO st (st.getD s noPt)
                prm.clusterPointProximity map := by
              intro j hj
              exact List.mem_of_mem_filter hj
            have hjs_valid : ∀ j ∈ js, j < st.length := by
              intro j hj
              exact hvalid j ((searchO_sublist_elems st _ _ map).mem (hjs_search j hj))
            have hjs_neg : ∀ j ∈ js, (st.getD j noPt).cID < 0 := by
              intro j hj
              have := List.mem_filter.mp hj
              simpa using this.2
            have hjs_nodup : js.Nodup :=
              (((searchO_sublist_elems st _ _ map).nodup hmapnd).filter _)
            have hdisj : ∀ i ∈ cp, i ∉ js := by
              intro i hi hij
              have h1 := (hcp i hi).2
              have h2 := hjs_neg i hij
              rw [h1] at h2
              omega
            have hcp1 := absorb_cp cid js st qrest cp
            have hst1 := absorb_st_eq cid js st qrest cp
            have hlen1 : (absorb cid js st qrest cp).1.length = st.length :=
              absorb_length cid js st qrest cp
            have hstrong := foldlSet_strong cid js st hjs_nodup
            -- invariants for the recursive call
            have hvalid1 : ∀ i ∈ map.elems, i < (absorb cid js st qrest cp).1.length := by
              intro i hi
              rw [hlen1]
              exact hvalid i hi
            have hcpinv1 : ∀ i ∈ (absorb cid js st qrest cp).2.2,
                i < (absorb cid js st qrest cp).1.length ∧
                  (((absorb cid js st qrest cp).1.getD i noPt).cID = (cid : ℤ)) := by
              intro i hi
              rw [hcp1] at hi
              rw [hlen1, hst1]
              rcases List.mem_append.mp hi with h' | h'
              · refine ⟨(hcp i h').1, ?_⟩
                rw [hstrong.1 i (hdisj i h')]
                exact (hcp i h').2
              · refine ⟨hjs_valid i h', ?_⟩
                rw [hstrong.2 i h' (hjs_valid i h')]
            have hnd1 : (absorb cid js st qrest cp).2.2.Nodup := by
              rw [hcp1]
              exact hnd.append hjs_nodup (fun a ha => hdisj a ha)
            have hq1 : ∀ i ∈ (absorb cid js st qrest cp).2.1,
                i ∈ (absorb cid js st qrest cp).2.2 := by
              intro i hi
              rw [hcp1]
              rcases absorb_queue_subset cid js st qrest cp i hi with h' | h'
              · exact List.mem_append_left _ (hq i (List.mem_cons_of_mem _ h'))
              · exact List.mem_append_right _ h'
            obtain ⟨c1, c2, c3, c4⟩ := ih (absorb cid js st qrest cp).1
              (absorb cid js st qrest cp).2.1 (absorb cid js st qrest cp).2.2
              hvalid1 hcpinv1 hnd1 hq1
            refine ⟨?_, ?_, c3, ?_⟩
            · intro i hi
              apply c1
              rw [hcp1]
              exact List.mem_append_left _ hi
            · intro i hi
              obtain ⟨hlt, htag⟩ := c2 i hi
              rw [hlen1] at hlt
              exact ⟨hlt, htag⟩
            · intro j
              have eget : j ∉ js →
                  (absorb cid js st qrest cp).1.getD j noPt = st.getD j noPt := by
                intro hjm
                rw [hst1]
                exact hstrong.1 j hjm
              have eget2 : j ∈ js →
                  (absorb cid js st qrest cp).1.getD j noPt =
                    { st.getD j noPt with cID := (cid : ℤ) } := by
                intro hjm
                rw [hst1]
                exact hstrong.2 j hjm (hjs_valid j hjm)
              rcases c4 j with h' | h'
              · by_cases hjmem : j ∈ js
                · refine Or.inr ⟨hjs_neg j hjmem, h'.trans (eget2 hjmem), ?_⟩
                  apply c1
                  rw [hcp1]
                  exact List.mem_append_right _ hjmem
                · exact Or.inl (h'.trans (eget hjmem))
              · obtain ⟨hneg, heq, hmem⟩ := h'
                by_cases hjmem : j ∈ js
                · rw [eget2 hjmem] at hneg
                  simp only [] at hneg
                  exact absurd hneg (by omega)
                · rw [eget hjmem] at hneg
                  exact Or.inr ⟨hneg, heq.trans (by rw [eget hjmem]), hmem⟩
          · -- no expansion from this seed
            exact ih st qrest cp hvalid hcp hnd
              (fun i hi => hq i (List.mem_cons_of_mem _ hi))

/-- Postcondition of `expandCluster`: members of the returned index list
are valid and tagged with the cluster id, the list is duplicate-free,
every buffer entry is untouched / retagged-from-negative / the centroid
marked noise, the buffer length is unchanged, a failed expansion returns
an empty list, and on success the whole seed list ends up in the
cluster. -/
theorem expandCluster_post (prm : DBParams) (map : Octree) (cid : ℕ)
    (hmapnd : map.elems.Nodup) (points : List Point) (cIdx : ℕ)
    (hvalid : ∀ i ∈ map.elems, i < points.length) :
    (∀ i ∈ (expandCluster prm map points cIdx cid).2.1,
      i < points.length ∧
        (((expandCluster prm map points cIdx cid).2.2.getD i noPt).cID = (cid : ℤ))) ∧
    (expandCluster prm map points cIdx cid).2.1.Nodup ∧
    (∀ j, (expandCluster prm map points cIdx cid).2.2.getD j noPt =
        points.getD j noPt ∨
      ((points.getD j noPt).cID < 0 ∧
        (expandCluster prm map points cIdx cid).2.2.getD j noPt =
          { points.getD j noPt with cID := (cid : ℤ) } ∧
        j ∈ (expandCluster prm map points cIdx cid).2.1) ∨
      (j = cIdx ∧ (expandCluster prm map points cIdx cid).1 = false ∧
        (expandCluster prm map points cIdx cid).2.2.getD j noPt =
          { points.getD j noPt with cID := cNoise })) ∧
    (expandCluster prm map points cIdx cid).2.2.length = points.length ∧
    ((expandCluster prm map points cIdx cid).1 = false →
      (expandCluster prm map points cIdx cid).2.1 = [] ∧
      (expandCluster prm map points cIdx cid).2.2 =
        setCID points cIdx cNoise) ∧
    ((expandCluster prm map points cIdx cid).1 = true →
      ∀ i ∈ (centroidNeighbours prm map (points.getD cIdx noPt) points).2,
        i ∈ (expandCluster prm map points cIdx cid).2.1) ∧
    ((centroidNeighbours prm map (points.getD cIdx noPt) points).2.length <
        prm.minClusterPoints ↔
      (expandCluster prm map points cIdx cid).1 = false) := by
  set seeds := (centroidNeighbours prm map (points.getD cIdx noPt) points).2 with hseeds
  have hseeds_search : ∀ j ∈ seeds, j ∈ searchO points (points.getD cIdx noPt)
      prm.clusterPointProximity map := by
    intro j hj
    exact List.mem_of_mem_filter hj
  have hseeds_valid : ∀ j ∈ seeds, j < points.length := by
    intro j hj
    exact hvalid j ((searchO_sublist_elems points _ _ map).mem (hseeds_search j hj))
  have hseeds_neg : ∀ j ∈ seeds, (points.getD j noPt).cID < 0 := by
    intro j hj
    have := List.mem_filter.mp hj
    simpa using this.2
  have hseeds_nodup : seeds.Nodup :=
    (((searchO_sublist_elems points _ _ map).nodup hmapnd).filter _)
  rw [expandCluster]
  by_cases hb : seeds.length < prm.minClusterPoints
  · rw [if_pos hb]
    refine ⟨fun i hi => absurd hi (List.not_mem_nil i), List.nodup_nil, ?_,
      setCID_length points cIdx cNoise, fun _ => ⟨rfl, rfl⟩,
      fun h => Bool.noConfusion h, ⟨fun _ => rfl, fun _ => hb⟩⟩
    intro j
    by_cases hj : j = cIdx
    · subst hj
      by_cases hlen : j < points.length
      · exact Or.inr (Or.inr ⟨rfl, rfl, getD_setCID_self cNoise hlen⟩)
      · rw [setCID_oob cNoise (le_of_not_lt hlen)]
        exact Or.inl rfl
    · exact Or.inl (getD_setCID_other cNoise hj)
  · rw [if_neg hb]
    set pts1 := seeds.foldl (fun st i => setCID st i (cid : ℤ)) points with hpts1
    have hstrong := foldlSet_strong cid seeds points hseeds_nodup
    have hlen1 : pts1.length = points.length := foldlSet_length cid seeds points
    have hvalid1 : ∀ i ∈ map.elems, i < pts1.length := by
      intro i hi
      rw [hlen1]
      exact hvalid i hi
    have hcp0 : ∀ i ∈ seeds, i < pts1.length ∧ ((pts1.getD i noPt).cID = (cid : ℤ)) := by
      intro i hi
      refine ⟨by rw [hlen1]; exact hseeds_valid i hi, ?_⟩
      rw [hstrong.2 i hi (hseeds_valid i hi)]
    have hqsub : ∀ i ∈ seeds.eraseIdx (indexCorePointOf seeds pts1
        (points.getD cIdx noPt)), i ∈ seeds := by
      intro i hi
      exact (List.eraseIdx_sublist seeds _).mem hi
    obtain ⟨c1, c2, c3, c4⟩ := expandLoop_post prm map cid hmapnd
      (expandFuel pts1 (seeds.eraseIdx (indexCorePointOf seeds pts1
        (points.getD cIdx noPt)))) pts1
      (seeds.eraseIdx (indexCorePointOf seeds pts1 (points.getD cIdx noPt)))
      seeds hvalid1 hcp0 hseeds_nodup hqsub
    refine ⟨?_, c3, ?_, ?_, fun h => Bool.noConfusion h, fun _ => c1,
      ⟨fun h => absurd h hb, fun h => Bool.noConfusion h⟩⟩
    · intro i hi
      obtain ⟨hlt, htag⟩ := c2 i hi
      rw [hlen1] at hlt
      exact ⟨hlt, htag⟩
    · intro j
      have eget : j ∉ seeds → pts1.getD j noPt = points.getD j noPt :=
        fun hjm => hstrong.1 j hjm
      have eget2 : j ∈ seeds → pts1.getD j noPt =
          { points.getD j noPt with cID := (cid : ℤ) } :=
        fun hjm => hstrong.2 j hjm (hseeds_valid j hjm)
      rcases c4 j with h' | h'
      · by_cases hjmem : j ∈ seeds
        · exact Or.inr (Or.inl ⟨hseeds_neg j hjmem, h'.trans (eget2 hjmem), c1 j hjmem⟩)
        · exact Or.inl (h'.trans (eget hjmem))
      · obtain ⟨hneg, heq, hmem⟩ := h'
        by_cases hjmem : j ∈ seeds
        · rw [eget2 hjmem] at hneg
          simp only [] at hneg
          exact absurd hneg (by omega)
        · rw [eget hjmem] at hneg
          exact Or.inr (Or.inl ⟨hneg, heq.trans (by rw [eget hjmem]), hmem⟩)
    · exact (expandLoop_length prm map cid _ pts1 _ _).trans hlen1

/-- Invariant of the `clusters` fold over `(clusterID, clusters, buffer)`
accumulators, relative to the initial buffer `pts0`. -/
def ClustersInv (pts0 : List Point) (acc : ℕ × List (List ℕ) × List Point) :
    Prop :=
  acc.2.2.length = pts0.length ∧
  coordsAgree acc.2.2 pts0 ∧
  acc.2.1.length = acc.1 ∧
  (∀ k, k < acc.1 → ∀ i ∈ acc.2.1.getD k [],
    i < pts0.length ∧ (acc.2.2.getD i noPt).cID = (k : ℤ)) ∧
  (∀ k, k < acc.1 → (acc.2.1.getD k []).Nodup) ∧
  (∀ i, i < pts0.length →
    (acc.2.2.getD i noPt).cID = cUnclassified ∨
    (acc.2.2.getD i noPt).cID = cNoise ∨
    ∃ k, k < acc.1 ∧ (acc.2.2.getD i noPt).cID = (k : ℤ) ∧
      i ∈ acc.2.1.getD k [])

theorem clustersStep_inv (prm : DBParams) (pts0 : List Point) (map : Octree)
    (hmapnd : map.elems.Nodup)
    (hvalidmap : ∀ i ∈ map.elems, i < pts0.length)
    (acc : ℕ × List (List ℕ) × List Point) (i : ℕ)
    (hInv : ClustersInv pts0 acc) :
    ClustersInv pts0 (DBScan.clustersStep prm map acc i) ∧
    (∀ j, (acc.2.2.getD j noPt).cID ≠ cUnclassified →
      ((DBScan.clustersStep prm map acc i).2.2.getD j noPt).cID ≠ cUnclassified) := by
  obtain ⟨I1, I2, I3, I4, I5, I6⟩ := hInv
  rw [DBScan.clustersStep]
  by_cases hfi : (acc.2.2.getD i noPt).cID = cUnclassified
  · rw [if_pos hfi]
    have hvm : ∀ j ∈ map.elems, j < acc.2.2.length := by
      intro j hj
      rw [I1]
      exact hvalidmap j hj
    obtain ⟨p1, p2, p3, p4, p5, p6, p7⟩ :=
      DBScan.expandCluster_post prm map acc.1 hmapnd acc.2.2 i hvm
    have hp1' : ∀ j ∈ (DBScan.expandCluster prm map acc.2.2 i acc.1).2.1,
        j < pts0.length ∧
          (((DBScan.expandCluster prm map acc.2.2 i acc.1).2.2.getD j noPt).cID =
            ((acc.1 : ℕ) : ℤ)) := by
      intro j hj
      obtain ⟨hlt, htag⟩ := p1 j hj
      exact ⟨I1 ▸ hlt, htag⟩
    have hcoords : coordsAgree (DBScan.expandCluster prm map acc.2.2 i acc.1).2.2 pts0 := by
      intro j
      obtain ⟨hx, hy, hz⟩ := I2 j
      rcases p3 j with h' | h' | h'
      · rw [h']
        exact ⟨hx, hy, hz⟩
      · rw [h'.2.1]
        exact ⟨hx, hy, hz⟩
      · rw [h'.2.2]
        exact ⟨hx, hy, hz⟩
    have hnonfresh : ∀ j, (acc.2.2.getD j noPt).cID ≠ cUnclassified →
        (((DBScan.expandCluster prm map acc.2.2 i acc.1).2.2.getD j noPt).cID ≠
          cUnclassified) := by
      intro j hj
      rcases p3 j with h' | h' | h'
      · rw [h']
        exact hj
      · rw [h'.2.1]
        simp only [cUnclassified]
        omega
      · rw [h'.2.2]
        simp only [cUnclassified, cNoise]
        omega
    have hmemold : ∀ k, k < acc.1 → ∀ j ∈ acc.2.1.getD k [],
        ((DBScan.expandCluster prm map acc.2.2 i acc.1).2.2.getD j noPt) =
          acc.2.2.getD j noPt := by
      intro k hk j hj
      have htag := (I4 k hk j hj).2
      rcases p3 j with h' | h' | h'
      · exact h'
      · exfalso
        rw [htag] at h'
        have := h'.1
        omega
      · exfalso
        rw [h'.1] at htag
        rw [hfi] at htag
        simp only [cUnclassified] at htag
        omega
    by_cases hsucc : (DBScan.expandCluster prm map acc.2.2 i acc.1).1 = true
    · -- success: push the new cluster
      simp only [hsucc, if_true]
      refine ⟨⟨?_, hcoords, ?_, ?_, ?_, ?_⟩, hnonfresh⟩
      · exact p4.trans I1
      · simp [I3]
      · intro k hk j hj
        by_cases hkold : k < acc.1
        · rw [List.getD_append _ _ _ _ (by rw [I3]; exact hkold)] at hj
          refine ⟨(I4 k hkold j hj).1, ?_⟩
          rw [hmemold k hkold j hj]
          exact (I4 k hkold j hj).2
        · have hkeq : k = acc.1 := by omega
          subst hkeq
          rw [List.getD_append_right _ _ _ _ (by rw [I3])] at hj
          rw [I3, Nat.sub_self] at hj
          simp only [List.getD_cons_zero] at hj
          exact hp1' j hj
      · intro k hk
        by_cases hkold : k < acc.1
        · rw [List.getD_append _ _ _ _ (by rw [I3]; exact hkold)]
          exact I5 k hkold
        · have hkeq : k = acc.1 := by omega
          subst hkeq
          rw [List.getD_append_right _ _ _ _ (by rw [I3])]
          rw [I3, Nat.sub_self]
          simpa using p2
      · intro j hj
        rcases p3 j with h' | h' | h'
        · rcases I6 j hj with h6 | h6 | h6
          · rw [h']
            exact Or.inl h6
          · rw [h']
            exact Or.inr (Or.inl h6)
          · obtain ⟨k, hk, htag, hmem⟩ := h6
            refine Or.inr (Or.inr ⟨k, by omega, by rw [h']; exact htag, ?_⟩)
            rw [List.getD_append _ _ _ _ (by rw [I3]; exact hk)]
            exact hmem
        · obtain ⟨_, heq, hmem⟩ := h'
          refine Or.inr (Or.inr ⟨acc.1, by omega, by rw [heq], ?_⟩)
          rw [List.getD_append_right _ _ _ _ (by rw [I3])]
          rw [I3, Nat.sub_self]
          simpa using hmem
        · exact absurd h'.2.1 (by rw [hsucc]; simp)
    · -- failure: centroid marked noise
      rw [Bool.not_eq_true] at hsucc
      simp only [hsucc, Bool.false_eq_true, if_false]
      refine ⟨⟨?_, hcoords, I3, ?_, I5, ?_⟩, hnonfresh⟩
      · exact p4.trans I1
      · intro k hk j hj
        refine ⟨(I4 k hk j hj).1, ?_⟩
        rw [hmemold k hk j hj]
        exact (I4 k hk j hj).2
      · intro j hj
        rcases p3 j with h' | h' | h'
        · rcases I6 j hj with h6 | h6 | h6
          · rw [h']
            exact Or.inl h6
          · rw [h']
            exact Or.inr (Or.inl h6)
          · obtain ⟨k, hk, htag, hmem⟩ := h6
            exact Or.inr (Or.inr ⟨k, hk, by rw [h']; exact htag, hmem⟩)
        · exact absurd h'.2.2 ((p5 hsucc).1 ▸ (List.not_mem_nil j))
        · rw [h'.2.2]
          exact Or.inr (Or.inl rfl)
  · rw [if_neg hfi]
    exact ⟨⟨I1, I2, I3, I4, I5, I6⟩, fun j hj => hj⟩

theorem distance2_eq_zero_of_coords {p q : Point} (hx : p.x = q.x)
    (hy : p.y = q.y) (hz : p.z = q.z) : distance2 p q = 0 := by
  unfold distance2
  rw [hx, hy, hz]
  ring

/-- Processing a still-fresh point always leaves it non-fresh (tagged
noise or with a cluster id), provided `MIN_CLUSTER_POINTS ≥ 1`. -/
theorem clustersStep_makes_nonfresh (prm : DBParams) (pts0 : List Point)
    (hmin : 1 ≤ prm.minClusterPoints)
    (acc : ℕ × List (List ℕ) × List Point) (i : ℕ) (hi : i < pts0.length)
    (hInv : ClustersInv pts0 acc) :
    ((DBScan.clustersStep prm (buildOctree prm.maxPointsPerLeaf pts0) acc
        i).2.2.getD i noPt).cID ≠ cUnclassified := by
  obtain ⟨I1, I2, I3, I4, I5, I6⟩ := hInv
  rw [DBScan.clustersStep]
  by_cases hfi : (acc.2.2.getD i noPt).cID = cUnclassified
  case neg =>
    rw [if_neg hfi]
    exact hfi
  rw [if_pos hfi]
  have hmapnd : (buildOctree prm.maxPointsPerLeaf pts0).elems.Nodup :=
    buildO_elems_nodup pts0 _ _ _ _ _ (List.nodup_range _)
  have hvalidmap : ∀ j ∈ (buildOctree prm.maxPointsPerLeaf pts0).elems,
      j < pts0.length := fun j hj =>
    List.mem_range.mp (buildO_elems_subset pts0 _ _ _ _ _ j hj)
  have hvm : ∀ j ∈ (buildOctree prm.maxPointsPerLeaf pts0).elems,
      j < acc.2.2.length := by
    intro j hj
    rw [I1]
    exact hvalidmap j hj
  obtain ⟨p1, p2, p3, p4, p5, p6, p7⟩ :=
    DBScan.expandCluster_post prm (buildOctree prm.maxPointsPerLeaf pts0) acc.1
      hmapnd acc.2.2 i hvm
  by_cases hsucc : (DBScan.expandCluster prm (buildOctree prm.maxPointsPerLeaf pts0)
      acc.2.2 i acc.1).1 = true
  · simp only [hsucc, if_true]
    -- the centroid is one of its own seeds, hence ends up in the cluster
    have hnotlt : ¬ (DBScan.centroidNeighbours prm
        (buildOctree prm.maxPointsPerLeaf pts0) (acc.2.2.getD i noPt)
          acc.2.2).2.length < prm.minClusterPoints := by
      intro hlt
      rw [p7.mp hlt] at hsucc
      exact Bool.noConfusion hsucc
    have hne : (DBScan.centroidNeighbours prm (buildOctree prm.maxPointsPerLeaf pts0)
        (acc.2.2.getD i noPt) acc.2.2).2 ≠ [] := by
      intro he
      rw [he] at hnotlt
      simp at hnotlt
      omega
    have hsearch_eq : searchO acc.2.2 (acc.2.2.getD i noPt)
        prm.clusterPointProximity (buildOctree prm.maxPointsPerLeaf pts0) =
        searchO pts0 (acc.2.2.getD i noPt) prm.clusterPointProximity
          (buildOctree prm.maxPointsPerLeaf pts0) :=
      searchO_congr _ _ I2 _
    have hmem := searchO_buildO_mem pts0 (acc.2.2.getD i noPt)
      prm.clusterPointProximity (buildFuel (rootHalf pts0)) prm.maxPointsPerLeaf
      (rootCenter pts0) (rootHalf pts0) (List.range pts0.length)
      (root_cube_contains pts0)
    -- the radius is nonnegative because some seed passed the sphere test
    obtain ⟨j0, hj0⟩ := List.exists_mem_of_ne_nil _ hne
    have hj0s : j0 ∈ searchO pts0 (acc.2.2.getD i noPt) prm.clusterPointProximity
        (buildOctree prm.maxPointsPerLeaf pts0) := by
      rw [← hsearch_eq]
      exact List.mem_of_mem_filter hj0
    have hr : 0 ≤ prm.clusterPointProximity :=
      (sphere_axis_bounds ((hmem j0).mp hj0s).2).1
    -- `i` is in its own sphere
    have hiself : inSphere (acc.2.2.getD i noPt) prm.clusterPointProximity
        (pts0.getD i noPt) = true := by
      unfold inSphere
      obtain ⟨hx, hy, hz⟩ := I2 i
      rw [distance2_eq_zero_of_coords hx.symm hy.symm hz.symm]
      simp only [Bool.and_eq_true, decide_eq_true_eq]
      exact ⟨hr, mul_self_nonneg _⟩
    have hisearch : i ∈ searchO acc.2.2 (acc.2.2.getD i noPt)
        prm.clusterPointProximity (buildOctree prm.maxPointsPerLeaf pts0) := by
      rw [hsearch_eq]
      exact (hmem i).mpr ⟨List.mem_range.mpr hi, hiself⟩
    have hiseed : i ∈ (DBScan.centroidNeighbours prm
        (buildOctree prm.maxPointsPerLeaf pts0) (acc.2.2.getD i noPt)
          acc.2.2).2 := by
      unfold DBScan.centroidNeighbours
      simp only [List.mem_filter]
      refine ⟨hisearch, ?_⟩
      rw [hfi]
      simp [cUnclassified]
    have hic := p6 hsucc i hiseed
    have := (p1 i hic).2
    rw [this]
    simp [cUnclassified]
  · rw [Bool.not_eq_true] at hsucc
    simp only [hsucc, Bool.false_eq_true, if_false]
    rw [(p5 hsucc).2, getD_setCID_self cNoise (by rw [I1]; exact hi)]
    simp [cUnclassified, cNoise]

theorem clustersFold_inv (prm : DBParams) (pts0 : List Point) (map : Octree)
    (hmapnd : map.elems.Nodup)
    (hvalidmap : ∀ i ∈ map.elems, i < pts0.length) :
    ∀ (is : List ℕ) (acc : ℕ × List (List ℕ) × List Point),
      ClustersInv pts0 acc →
      ClustersInv pts0 (is.foldl (DBScan.clustersStep prm map) acc) ∧
      (∀ j, (acc.2.2.getD j noPt).cID ≠ cUnclassified →
        (((is.foldl (DBScan.clustersStep prm map) acc).2.2.getD j noPt).cID ≠
          cUnclassified)) := by
  intro is
  induction is with
  | nil => intro acc hInv; exact ⟨hInv, fun j hj => hj⟩
  | cons i rest ih =>
      intro acc hInv
      obtain ⟨hstep, hnf⟩ := clustersStep_inv prm pts0 map hmapnd hvalidmap acc i hInv
      obtain ⟨hrest, hnfr⟩ := ih _ hstep
      exact ⟨hrest, fun j hj => hnfr j (hnf j hj)⟩

theorem clustersFold_processed (prm : DBParams) (pts0 : List Point)
    (hmin : 1 ≤ prm.minClusterPoints)
    (hmapnd : (buildOctree prm.maxPointsPerLeaf pts0).elems.Nodup)
    (hvalidmap : ∀ i ∈ (buildOctree prm.maxPointsPerLeaf pts0).elems,
      i < pts0.length) :
    ∀ (is : List ℕ) (acc : ℕ × List (List ℕ) × List Point),
      ClustersInv pts0 acc →
      ∀ i ∈ is, i < pts0.length →
        (((is.foldl (DBScan.clustersStep prm
            (buildOctree prm.maxPointsPerLeaf pts0)) acc).2.2.getD i
          noPt).cID ≠ cUnclassified) := by
  intro is
  induction is with
  | nil => intro acc _ i hi; exact absurd hi (List.not_mem_nil i)
  | cons j rest ih =>
      intro acc hInv i hi hilen
      obtain ⟨hstep, _⟩ := clustersStep_inv prm pts0 _ hmapnd hvalidmap acc j hInv
      rcases List.mem_cons.mp hi with h' | h'
      · subst h'
        have hmade := clustersStep_makes_nonfresh prm pts0 hmin acc i hilen
          ⟨hInv.1, hInv.2.1, hInv.2.2.1, hInv.2.2.2.1, hInv.2.2.2.2.1,
            hInv.2.2.2.2.2⟩
        rw [List.foldl_cons]
        exact (clustersFold_inv prm pts0 _ hmapnd hvalidmap rest _ hstep).2 i hmade
      · rw [List.foldl_cons]
        exact ih _ hstep i h' hilen

/-- C2 (amended): for every input point vector **all of whose points are
initially `Unclassified`** (as at every call site) and with
`MIN_CLUSTER_POINTS ≥ 1`, the cluster index lists returned by
`DBScan::clusters` are pairwise disjoint and duplicate-free, and on
return every point's `clusterID` is either `cNoise` (and the point is in
no cluster) or the id of the unique returned cluster whose list contains
its index; no point is left `cUnclassified`, `cCorePoint` or
`cBorderPoint`. -/
theorem dbscan_clusters_partition (prm : DBParams) (points : List Point)
    (hmin : 1 ≤ prm.minClusterPoints)
    (hfresh : ∀ p ∈ points, p.cID = cUnclassified) :
    List.Pairwise (fun A B => ∀ i, i ∈ A → i ∉ B) (DBScan.clusters prm points).1 ∧
    (∀ cl ∈ (DBScan.clusters prm points).1, cl.Nodup) ∧
    (∀ i, i < points.length →
      ((((DBScan.clusters prm points).2.getD i noPt).cID = cNoise ∧
        ∀ cl ∈ (DBScan.clusters prm points).1, i ∉ cl) ∨
      (∃ k, k < (DBScan.clusters prm points).1.length ∧
        (((DBScan.clusters prm points).2.getD i noPt).cID = (k : ℤ)) ∧
        i ∈ (DBScan.clusters prm points).1.getD k [] ∧
        ∀ k', k' < (DBScan.clusters prm points).1.length →
          i ∈ (DBScan.clusters prm points).1.getD k' [] → k' = k))) := by
  have hmapnd : (buildOctree prm.maxPointsPerLeaf points).elems.Nodup :=
    buildO_elems_nodup points _ _ _ _ _ (List.nodup_range _)
  have hvalidmap : ∀ j ∈ (buildOctree prm.maxPointsPerLeaf points).elems,
      j < points.length := fun j hj =>
    List.mem_range.mp (buildO_elems_subset points _ _ _ _ _ j hj)
  have hbase : ClustersInv points (0, [], points) := by
    refine ⟨rfl, fun j => ⟨rfl, rfl, rfl⟩, rfl, ?_, ?_, ?_⟩
    · intro k hk
      exact absurd hk (Nat.not_lt_zero k)
    · intro k hk
      exact absurd hk (Nat.not_lt_zero k)
    · intro i hi
      left
      have hmem : points.getD i noPt ∈ points := by
        rw [List.getD_eq_getElem _ _ hi]
        exact List.getElem_mem hi
      exact hfresh _ hmem
  obtain ⟨hInv, _⟩ := clustersFold_inv prm points _ hmapnd hvalidmap
    (List.range points.length) (0, [], points) hbase
  have hproc := clustersFold_processed prm points hmin hmapnd hvalidmap
    (List.range points.length) (0, [], points) hbase
  obtain ⟨I1, I2, I3, I4, I5, I6⟩ := hInv
  set acc := (List.range points.length).foldl
    (DBScan.clustersStep prm (buildOctree prm.maxPointsPerLeaf points))
    (0, [], points) with hacc
  have hfst : (DBScan.clusters prm points).1 = acc.2.1 := rfl
  have hsnd : (DBScan.clusters prm points).2 = acc.2.2 := rfl
  rw [hfst, hsnd]
  refine ⟨?_, ?_, ?_⟩
  · rw [List.pairwise_iff_getElem]
    intro a b ha hb hab i hia hib
    have haD : acc.2.1[a] = acc.2.1.getD a [] := (List.getD_eq_getElem _ _ ha).symm
    have hbD : acc.2.1[b] = acc.2.1.getD b [] := (List.getD_eq_getElem _ _ hb).symm
    rw [haD] at hia
    rw [hbD] at hib
    have h1 := (I4 a (by rw [← I3]; exact ha) i hia).2
    have h2 := (I4 b (by rw [← I3]; exact hb) i hib).2
    rw [h1] at h2
    have : a = b := by exact_mod_cast h2
    omega
  · intro cl hcl
    obtain ⟨k, hk, hkeq⟩ := List.mem_iff_getElem.mp hcl
    have : cl = acc.2.1.getD k [] := by
      rw [List.getD_eq_getElem _ _ hk, hkeq]
    rw [this]
    exact I5 k (by rw [← I3]; exact hk)
  · intro i hi
    have hnf := hproc i (List.mem_range.mpr hi) hi
    rcases I6 i hi with h6 | h6 | h6
    · exact absurd h6 hnf
    · left
      refine ⟨h6, ?_⟩
      intro cl hcl hicl
      obtain ⟨k, hk, hkeq⟩ := List.mem_iff_getElem.mp hcl
      have hclD : cl = acc.2.1.getD k [] := by
        rw [List.getD_eq_getElem _ _ hk, hkeq]
      rw [hclD] at hicl
      have := (I4 k (by rw [← I3]; exact hk) i hicl).2
      rw [h6] at this
      simp only [cNoise] at this
      omega
    · obtain ⟨k, hk, htag, hmem⟩ := h6
      right
      refine ⟨k, by rw [I3]; exact hk, htag, hmem, ?_⟩
      intro k' hk' hmem'
      have := (I4 k' (by rw [← I3]; exact hk') i hmem').2
      rw [htag] at this
      exact_mod_cast this.symm

end DBScan

/-- Concrete fresh two-point input for the C2 witness. -/
def ptsW2 : List Point := [⟨0, 0, 0, -1⟩, ⟨5, 0, 0, -1⟩]

/-- Parameters for the C2 witness. -/
def prmW2 : DBParams := ⟨10, 1, 100⟩

/-- Witness for the amended C2 at a concrete input. -/
theorem dbscan_clusters_partition_witness :
    (1 ≤ prmW2.minClusterPoints ∧ (∀ p ∈ ptsW2, p.cID = cUnclassified)) ∧
    (List.Pairwise (fun A B => ∀ i, i ∈ A → i ∉ B)
        (DBScan.clusters prmW2 ptsW2).1 ∧
      (∀ cl ∈ (DBScan.clusters prmW2 ptsW2).1, cl.Nodup) ∧
      (∀ i, i < ptsW2.length →
        ((((DBScan.clusters prmW2 ptsW2).2.getD i noPt).cID = cNoise ∧
          ∀ cl ∈ (DBScan.clusters prmW2 ptsW2).1, i ∉ cl) ∨
        (∃ k, k < (DBScan.clusters prmW2 ptsW2).1.length ∧
          (((DBScan.clusters prmW2 ptsW2).2.getD i noPt).cID = (k : ℤ)) ∧
          i ∈ (DBScan.clusters prmW2 ptsW2).1.getD k [] ∧
          ∀ k', k' < (DBScan.clusters prmW2 ptsW2).1.length →
            i ∈ (DBScan.clusters prmW2 ptsW2).1.getD k' [] → k' = k)))) :=
  ⟨⟨by decide, by decide⟩,
    DBScan.dbscan_clusters_partition prmW2 ptsW2 (by decide) (by decide)⟩

/-! ## Real-valued vectors and the normal-coherent neighbour test

Surface normals are produced by eigen-decomposition (`Geometry.hh`,
outside the repository sources) and fed through `acos`-based angle
comparisons; they are modelled over `ℝ` (`double` arithmetic on unit
normals involves `sqrt`/`acos`, which have no exact rational form).
`Vector` is a `typedef` for `Point` (`Point.hh` line 246), so the
`Vector(0,0,0)` inequality test at `DBScan.cc` lines 110 and 186 is the
`ε`-componentwise `operator!=` of `Point.hh`. -/

/-- A `Vector` (`typedef Point Vector`) used as a surface normal; only
the three coordinates partake in the normal pipeline. -/
structure RVec where
  x : ℝ
  y : ℝ
  z : ℝ

/-- `Vector(0, 0, 0)`. -/
def RVec.zero : RVec := ⟨0, 0, 0⟩

/-- `Point::module`: the Euclidean norm. -/
noncomputable def RVec.module (v : RVec) : ℝ :=
  Real.sqrt (v.x * v.x + v.y * v.y + v.z * v.z)

/-- `Point::scalarProduct`. -/
def RVec.scalarProduct (u v : RVec) : ℝ :=
  u.x * v.x + u.y * v.y + u.z * v.z

/-- `Point::vectorialAngle`:
`acos(scalarProduct(v) / (module() * v.module()))`. -/
noncomputable def RVec.vectorialAngle (u v : RVec) : ℝ :=
  Real.arccos (u.scalarProduct v / (u.module * v.module))

/-- `operator!=` of `Point.hh` on normals: negation of the
`ε`-componentwise equality. -/
def RVec.vecNe (u v : RVec) : Prop :=
  ¬(|u.x - v.x| ≤ (dblEpsilon : ℝ) ∧ |u.y - v.y| ≤ (dblEpsilon : ℝ) ∧
    |u.z - v.z| ≤ (dblEpsilon : ℝ))

/-- Parameters of the normal-coherent DBSCAN variant (`app/config.h` is
not among the sources; the constants are taken as parameters). -/
structure NParams where
  facePointProximity : ℚ
  minFacePoints : ℕ
  maxPointsPerLeaf : ℕ
  maxNormalVectAngle : ℝ
  maxMeanVectAngle : ℝ
  maxMeanVectAngleSingle : ℝ

/-- The absorption decision of `DBScan::centroidNormalNeighbours`
(DBScan.cc lines 186-190) for a candidate with normal `ni`, against the
seed's normal `ncent` and the running mean normal `mean`: the candidate
normal is nonzero, and either the pair test together with the mean test
passes, or the single-mean test passes. -/
def normalNeighborTest (prm : NParams) (ncent mean ni : RVec) : Prop :=
  RVec.vecNe ni RVec.zero ∧
  ((RVec.vectorialAngle ncent ni ≤ prm.maxNormalVectAngle ∧
    RVec.vectorialAngle mean ni ≤ prm.maxMeanVectAngle) ∨
   RVec.vectorialAngle mean ni ≤ prm.maxMeanVectAngleSingle)

/-- Thresholds `π/3` radians for each of the three angle limits (the
spatial/occupancy parameters are irrelevant to the angle test). -/
noncomputable def prmC4 : NParams :=
  ⟨1, 1, 1, Real.pi / 3, Real.pi / 3, Real.pi / 3⟩

/-- The unit normal `(1, 0, 0)`. -/
def e1R : RVec := ⟨1, 0, 0⟩

theorem e1R_module : RVec.module e1R = 1 := by
  unfold RVec.module e1R
  norm_num

theorem e1R_ne_zero : RVec.vecNe e1R RVec.zero := by
  unfold RVec.vecNe e1R RVec.zero dblEpsilon
  intro h
  obtain ⟨hx, -, -⟩ := h
  norm_num at hx

/-- **C4** (refuted — code bug): the absorption decision of
`centroidNormalNeighbours` is NOT invariant under negating a normal.
With all three angle thresholds at `π/3` and seed normal, mean normal
and candidate normal all `(1, 0, 0)`, the candidate is accepted
(`acos 1 = 0 ≤ π/3`), but negating the candidate's normal to
`(-1, 0, 0)` makes every angle `acos (-1) = π > π/3`, so the same
candidate is rejected: `vectorialAngle` is `acos` of the raw (signed)
cosine, not of its absolute value, although normal estimation leaves
the sign unresolved. -/
theorem normal_test_not_sign_agnostic :
    normalNeighborTest prmC4 e1R e1R e1R ∧
    ¬ normalNeighborTest prmC4 e1R e1R ⟨-e1R.x, -e1R.y, -e1R.z⟩ := by
  have hmodn : RVec.module ⟨-e1R.x, -e1R.y, -e1R.z⟩ = 1 := by
    unfold RVec.module e1R
    norm_num
  have hang1 : RVec.vectorialAngle e1R e1R = 0 := by
    unfold RVec.vectorialAngle RVec.scalarProduct
    rw [e1R_module]
    show Real.arccos ((e1R.x * e1R.x + e1R.y * e1R.y + e1R.z * e1R.z) / (1 * 1)) = 0
    unfold e1R
    norm_num [Real.arccos_one]
  have hang2 : RVec.vectorialAngle e1R ⟨-e1R.x, -e1R.y, -e1R.z⟩ = Real.pi := by
    unfold RVec.vectorialAngle RVec.scalarProduct
    rw [e1R_module, hmodn]
    show Real.arccos (_ / (1 * 1)) = Real.pi
    unfold e1R
    norm_num [Real.arccos_neg_one]
  constructor
  · refine ⟨e1R_ne_zero, Or.inl ⟨?_, ?_⟩⟩ <;>
      · rw [hang1]
        show (0 : ℝ) ≤ Real.pi / 3
        linarith [Real.pi_pos]
  · rintro ⟨-, h⟩
    have hgt : ¬ (Real.pi ≤ Real.pi / 3) := by linarith [Real.pi_pos]
    rcases h with ⟨h1, -⟩ | h1 <;>
      · rw [hang2] at h1
        exact hgt h1

/-! ## Normal-coherent DBSCAN (`DBScan::normals`, DBScan.cc 102-199)

`Geometry::computeNormals` lives in `Geometry.hh`/`Geometry.cc`, which
are not among the sources; `DBScan::normals` is therefore modelled with
the per-point normal vector list `nrm` as an input (the claims below
hold for every normals vector).  The clustering skeleton itself —
`normals`, `expandNormalCluster`, `centroidNormalNeighbours` — is
translated from `DBScan.cc`. -/

namespace Geometry

/-- Modelled from the spec (`Geometry.hh` is not among the sources):
vector mean — the arithmetic mean of the collection, re-normalized to
unit length; zero input produces the zero vector. -/
noncomputable def mean (l : List RVec) : RVec :=
  let s := l.foldl (fun a v => ⟨a.x + v.x, a.y + v.y, a.z + v.z⟩) RVec.zero
  let avg : RVec := ⟨s.x / l.length, s.y / l.length, s.z / l.length⟩
  if avg.module = 0 then RVec.zero
  else ⟨avg.x / avg.module, avg.y / avg.module, avg.z / avg.module⟩

end Geometry

namespace DBScan

open Classical in
/-- `DBScan::centroidNormalNeighbours`: query the sphere kernel around
point `centroid`, accept the neighbours passing the angular test
against the seed's normal `nrm[centroid]` and the running mean
`meanNormal`; return the count of accepted neighbours and the indices
of the accepted neighbours whose cluster tag is negative. -/
noncomputable def centroidNormalNeighbours (prm : NParams) (map : Octree)
    (nrm : List RVec) (centroid : ℕ) (meanNormal : RVec)
    (points : List Point) : ℕ × List ℕ :=
  let neighbourPoints :=
    searchO points (points.getD centroid noPt) prm.facePointProximity map
  let accepted := neighbourPoints.filter (fun i =>
    decide (normalNeighborTest prm (nrm.getD centroid RVec.zero) meanNormal
      (nrm.getD i RVec.zero)))
  (accepted.length,
    accepted.filter (fun i => decide ((points.getD i noPt).cID < 0)))

/-- The inner absorption loop of `expandNormalCluster` (lines 156-165):
like the spatial `absorb`, but also appending each absorbed point's
normal to the cluster-normal list. -/
def absorbN (cid : ℕ) (nrm : List RVec) :
    List ℕ → List Point → List ℕ → List ℕ → List RVec →
    List Point × List ℕ × List ℕ × List RVec
  | [], st, queue, cp, cns => (st, queue, cp, cns)
  | j :: rest, st, queue, cp, cns =>
      let queue' :=
        if (st.getD j noPt).cID = cUnclassified then queue ++ [j] else queue
      absorbN cid nrm rest (setCID st j (cid : ℤ)) queue' (cp ++ [j])
        (cns ++ [nrm.getD j RVec.zero])

/-- The seed-expansion worklist of `expandNormalCluster` (lines
150-167): the mean normal is recomputed from the cluster-normal list at
the head of every seed iteration (line 151), before the batch of
decisions and absorptions for that seed. -/
noncomputable def expandNormalLoop (prm : NParams) (map : Octree)
    (nrm : List RVec) (cid : ℕ) :
    ℕ → List Point → List ℕ → List ℕ → List RVec → List Point × List ℕ
  | 0, st, _, cp, _ => (st, cp)
  | fuel + 1, st, queue, cp, cns =>
      match queue with
      | [] => (st, cp)
      | s :: qrest =>
          let meanNormal := Geometry.mean cns
          let nb := centroidNormalNeighbours prm map nrm s meanNormal st
          if prm.minFacePoints ≤ nb.1 then
            let r := absorbN cid nrm nb.2 st qrest cp cns
            expandNormalLoop prm map nrm cid fuel r.1 r.2.1 r.2.2.1 r.2.2.2
          else
            expandNormalLoop prm map nrm cid fuel st qrest cp cns

/-- `DBScan::expandNormalCluster`.  Returns the success flag, the
face's index list and the updated point buffer. -/
noncomputable def expandNormalCluster (prm : NParams) (map : Octree)
    (points : List Point) (nrm : List RVec) (centroidIdx : ℕ) (cid : ℕ) :
    Bool × List ℕ × List Point :=
  let clusterSeeds := centroidNormalNeighbours prm map nrm centroidIdx
    (nrm.getD centroidIdx RVec.zero) points
  if clusterSeeds.2.length < prm.minFacePoints then
    (false, [], setCID points centroidIdx cNoise)
  else
    let clusterPoints := clusterSeeds.2
    let cns0 := clusterSeeds.2.map (fun i => nrm.getD i RVec.zero)
    let pts1 := clusterSeeds.2.foldl (fun st i => setCID st i (cid : ℤ)) points
    let indexCorePoint :=
      indexCorePointOf clusterSeeds.2 pts1 (points.getD centroidIdx noPt)
    let queue := clusterSeeds.2.eraseIdx indexCorePoint
    let out := expandNormalLoop prm map nrm cid (expandFuel pts1 queue) pts1
      queue clusterPoints cns0
    (true, out.2, out.1)

open Classical in
/-- One iteration of the `DBScan::normals` loop (lines 109-117): expand
a face from point `i` when it is still `Unclassified` and its normal is
nonzero. -/
noncomputable def normalsStep (prm : NParams) (map : Octree)
    (nrm : List RVec) (acc : ℕ × List (List ℕ) × List Point) (i : ℕ) :
    ℕ × List (List ℕ) × List Point :=
  if (acc.2.2.getD i noPt).cID = cUnclassified ∧
      RVec.vecNe (nrm.getD i RVec.zero) RVec.zero then
    let expansion := expandNormalCluster prm map acc.2.2 nrm i acc.1
    if expansion.1 then (acc.1 + 1, acc.2.1 ++ [expansion.2.1], expansion.2.2)
    else (acc.1, acc.2.1, expansion.2.2)
  else acc

/-- `DBScan::normals`: iterate the points in array order, expanding a
face from every still-`Unclassified` point with a nonzero normal.
Returns the faces (index lists) and the final point buffer. -/
noncomputable def normals (prm : NParams) (points : List Point)
    (nrm : List RVec) : List (List ℕ) × List Point :=
  let map := buildOctree prm.maxPointsPerLeaf points
  let acc := (List.range points.length).foldl (normalsStep prm map nrm)
    (0, [], points)
  (acc.2.1, acc.2.2)

/-- Spec-side formulation of the worklist (for the C5 refinement): no
incrementally-maintained cluster-normal list; instead the mean normal
tested against each candidate is recomputed, at every seed iteration,
as `Geometry::mean` of the normals of ALL points currently in the
cluster. -/
noncomputable def expandNormalLoopSpec (prm : NParams) (map : Octree)
    (nrm : List RVec) (cid : ℕ) :
    ℕ → List Point → List ℕ → List ℕ → List Point × List ℕ
  | 0, st, _, cp => (st, cp)
  | fuel + 1, st, queue, cp =>
      match queue with
      | [] => (st, cp)
      | s :: qrest =>
          let meanNormal := Geometry.mean (cp.map (fun i => nrm.getD i RVec.zero))
          let nb := centroidNormalNeighbours prm map nrm s meanNormal st
          if prm.minFacePoints ≤ nb.1 then
            let r := absorb cid nb.2 st qrest cp
            expandNormalLoopSpec prm map nrm cid fuel r.1 r.2.1 r.2.2
          else
            expandNormalLoopSpec prm map nrm cid fuel st qrest cp

/-- Spec-side `expandNormalCluster` built on `expandNormalLoopSpec`. -/
noncomputable def expandNormalClusterSpec (prm : NParams) (map : Octree)
    (points : List Point) (nrm : List RVec) (centroidIdx : ℕ) (cid : ℕ) :
    Bool × List ℕ × List Point :=
  let clusterSeeds := centroidNormalNeighbours prm map nrm centroidIdx
    (nrm.getD centroidIdx RVec.zero) points
  if clusterSeeds.2.length < prm.minFacePoints then
    (false, [], setCID points centroidIdx cNoise)
  else
    let clusterPoints := clusterSeeds.2
    let pts1 := clusterSeeds.2.foldl (fun st i => setCID st i (cid : ℤ)) points
    let indexCorePoint :=
      indexCorePointOf clusterSeeds.2 pts1 (points.getD centroidIdx noPt)
    let queue := clusterSeeds.2.eraseIdx indexCorePoint
    let out := expandNormalLoopSpec prm map nrm cid (expandFuel pts1 queue) pts1
      queue clusterPoints
    (true, out.2, out.1)

/-- The cluster-normal list maintained by the code is exactly the map
of the normals over the cluster's index list: `absorbN` extends both in
lockstep, so on a cluster-normal input of that shape it agrees with the
plain `absorb` plus the map. -/
theorem absorbN_absorb (cid : ℕ) (nrm : List RVec) :
    ∀ (js : List ℕ) (st : List Point) (queue cp : List ℕ),
      absorbN cid nrm js st queue cp
          (cp.map (fun i => nrm.getD i RVec.zero)) =
        ((absorb cid js st queue cp).1, (absorb cid js st queue cp).2.1,
         (absorb cid js st queue cp).2.2,
         (absorb cid js st queue cp).2.2.map
           (fun i => nrm.getD i RVec.zero)) := by
  intro js
  induction js with
  | nil => intro st queue cp; rfl
  | cons j rest ih =>
      intro st queue cp
      simp only [absorbN, absorb]
      have h := ih (setCID st j (cid : ℤ))
        (if (st.getD j noPt).cID = cUnclassified then queue ++ [j] else queue)
        (cp ++ [j])
      simp only [List.map_append, List.map_cons, List.map_nil] at h
      exact h

/-- The code's worklist, started with a cluster-normal list of the
canonical shape, coincides with the spec-side worklist that recomputes
the mean from the current cluster membership at every seed
iteration. -/
theorem expandNormalLoop_recomputes (prm : NParams) (map : Octree)
    (nrm : List RVec) (cid : ℕ) :
    ∀ (fuel : ℕ) (st : List Point) (queue cp : List ℕ),
      expandNormalLoop prm map nrm cid fuel st queue cp
          (cp.map (fun i => nrm.getD i RVec.zero)) =
        expandNormalLoopSpec prm map nrm cid fuel st queue cp := by
  intro fuel
  induction fuel with
  | zero => intro st queue cp; rfl
  | succ fuel ih =>
      intro st queue cp
      cases queue with
      | nil => rfl
      | cons s qrest =>
          simp only [expandNormalLoop, expandNormalLoopSpec]
          by_cases hc : prm.minFacePoints ≤
              (centroidNormalNeighbours prm map nrm s
                (Geometry.mean (cp.map (fun i => nrm.getD i RVec.zero))) st).1
          · rw [if_pos hc, if_pos hc, absorbN_absorb]
            exact ih _ _ _
          · rw [if_neg hc, if_neg hc]
            exact ih _ _ _

end DBScan

/-- **C5**: during normal-coherent cluster expansion, every absorption
decision is taken against the mean normal over the normals of ALL
points currently in the cluster: the code's incrementally-maintained
`clusterNormals` always equals the normals of the cluster's current
index list (they are extended in lockstep, both at seeding and at
absorption), and the mean is recomputed from it at the head of every
seed iteration (DBScan.cc line 151), before that iteration's decisions;
all decisions of a batch precede the batch's absorptions, so no
decision ever uses a mean staler than the last absorption.  Stated as a
refinement: `expandNormalCluster` equals the spec-side variant that
recomputes the mean from the current cluster membership at every seed
iteration. -/
theorem expand_normal_cluster_recomputes_mean (prm : NParams)
    (map : Octree) (points : List Point) (nrm : List RVec)
    (centroidIdx cid : ℕ) :
    DBScan.expandNormalCluster prm map points nrm centroidIdx cid =
      DBScan.expandNormalClusterSpec prm map points nrm centroidIdx cid := by
  simp only [DBScan.expandNormalCluster, DBScan.expandNormalClusterSpec]
  by_cases h : (DBScan.centroidNormalNeighbours prm map nrm centroidIdx
      (nrm.getD centroidIdx RVec.zero) points).2.length < prm.minFacePoints
  · rw [if_pos h, if_pos h]
  · rw [if_neg h, if_neg h, DBScan.expandNormalLoop_recomputes]

namespace DBScan

/-- The accepted-and-negative index list of `centroidNormalNeighbours`
is duplicate-free, in range, and negatively tagged (it is a double
filter of the octree query). -/
theorem centroidNormalNeighbours_facts (prm : NParams) (map : Octree)
    (nrm : List RVec) (s : ℕ) (meanN : RVec) (st : List Point)
    (hmapnd : map.elems.Nodup) (hvalid : ∀ i ∈ map.elems, i < st.length) :
    (centroidNormalNeighbours prm map nrm s meanN st).2.Nodup ∧
    ∀ j ∈ (centroidNormalNeighbours prm map nrm s meanN st).2,
      j < st.length ∧ (st.getD j noPt).cID < 0 := by
  simp only [centroidNormalNeighbours]
  constructor
  · exact (((searchO_sublist_elems st _ _ map).nodup hmapnd).filter _).filter _
  · intro j hj
    have h1 := List.mem_filter.mp hj
    have h2 := List.mem_of_mem_filter h1.1
    refine ⟨hvalid j ((searchO_sublist_elems st _ _ map).mem h2), ?_⟩
    simpa using h1.2

theorem expandNormalLoopSpec_length (prm : NParams) (map : Octree)
    (nrm : List RVec) (cid : ℕ) :
    ∀ (fuel : ℕ) (st : List Point) (queue cp : List ℕ),
      (expandNormalLoopSpec prm map nrm cid fuel st queue cp).1.length =
        st.length := by
  intro fuel
  induction fuel with
  | zero => intro st queue cp; rfl
  | succ fuel ih =>
      intro st queue cp
      cases queue with
      | nil => rw [expandNormalLoopSpec]
      | cons s qrest =>
          rw [expandNormalLoopSpec]
          split
          · rw [ih, absorb_length]
          · rw [ih]

/-- Invariant of the spec-side worklist: members of the cluster's index
list stay in range and tagged with the cluster id, and the list stays
duplicate-free (candidates carry a negative tag, so they are never
already members; batches are duplicate-free as filters of one octree
query). -/
theorem expandNormalLoopSpec_post (prm : NParams) (map : Octree)
    (nrm : List RVec) (cid : ℕ) (hmapnd : map.elems.Nodup) :
    ∀ (fuel : ℕ) (st : List Point) (queue cp : List ℕ),
      (∀ i ∈ map.elems, i < st.length) →
      (∀ i ∈ cp, i < st.length ∧ (st.getD i noPt).cID = (cid : ℤ)) →
      cp.Nodup →
      (∀ i ∈ (expandNormalLoopSpec prm map nrm cid fuel st queue cp).2,
        i < st.length ∧
        (((expandNormalLoopSpec prm map nrm cid fuel st queue cp).1.getD
          i noPt).cID = (cid : ℤ))) ∧
      (expandNormalLoopSpec prm map nrm cid fuel st queue cp).2.Nodup := by
  intro fuel
  induction fuel with
  | zero =>
      intro st queue cp hvalid hcp hnd
      exact ⟨fun i hi => hcp i hi, hnd⟩
  | succ fuel ih =>
      intro st queue cp hvalid hcp hnd
      cases queue with
      | nil =>
          rw [expandNormalLoopSpec]
          exact ⟨fun i hi => hcp i hi, hnd⟩
      | cons s qrest =>
          rw [expandNormalLoopSpec]
          split
          · set js := (centroidNormalNeighbours prm map nrm s
              (Geometry.mean (cp.map (fun i => nrm.getD i RVec.zero)))
              st).2 with hjsdef
            obtain ⟨hjs_nodup, hjs_facts⟩ := centroidNormalNeighbours_facts
              prm map nrm s
              (Geometry.mean (cp.map (fun i => nrm.getD i RVec.zero))) st
              hmapnd hvalid
            have hjs_valid : ∀ j ∈ js, j < st.length :=
              fun j hj => (hjs_facts j hj).1
            have hdisj : ∀ i ∈ cp, i ∉ js := by
              intro i hi hij
              have h1 := (hcp i hi).2
              have h2 := (hjs_facts i hij).2
              rw [h1] at h2
              omega
            have hcp1 := absorb_cp cid js st qrest cp
            have hst1 := absorb_st_eq cid js st qrest cp
            have hlen1 : (absorb cid js st qrest cp).1.length = st.length :=
              absorb_length cid js st qrest cp
            have hstrong := foldlSet_strong cid js st hjs_nodup
            have hvalid1 : ∀ i ∈ map.elems,
                i < (absorb cid js st qrest cp).1.length := by
              intro i hi
              rw [hlen1]
              exact hvalid i hi
            have hcpinv1 : ∀ i ∈ (absorb cid js st qrest cp).2.2,
                i < (absorb cid js st qrest cp).1.length ∧
                  (((absorb cid js st qrest cp).1.getD i noPt).cID =
                    (cid : ℤ)) := by
              intro i hi
              rw [hcp1] at hi
              rw [hlen1, hst1]
              rcases List.mem_append.mp hi with h' | h'
              · refine ⟨(hcp i h').1, ?_⟩
                rw [hstrong.1 i (hdisj i h')]
                exact (hcp i h').2
              · refine ⟨hjs_valid i h', ?_⟩
                rw [hstrong.2 i h' (hjs_valid i h')]
            have hnd1 : (absorb cid js st qrest cp).2.2.Nodup := by
              rw [hcp1]
              exact hnd.append hjs_nodup (fun a ha => hdisj a ha)
            obtain ⟨c2, c3⟩ := ih (absorb cid js st qrest cp).1
              (absorb cid js st qrest cp).2.1 (absorb cid js st qrest cp).2.2
              hvalid1 hcpinv1 hnd1
            refine ⟨?_, c3⟩
            intro i hi
            obtain ⟨hlt, htag⟩ := c2 i hi
            rw [hlen1] at hlt
            exact ⟨hlt, htag⟩
          · exact ih st qrest cp hvalid hcp hnd

/-- A face returned by `expandNormalCluster` is duplicate-free, and the
buffer's length is preserved. -/
theorem expandNormalCluster_nodup (prm : NParams) (map : Octree)
    (points : List Point) (nrm : List RVec) (centroidIdx cid : ℕ)
    (hmapnd : map.elems.Nodup)
    (hvalid : ∀ i ∈ map.elems, i < points.length) :
    (expandNormalCluster prm map points nrm centroidIdx cid).2.1.Nodup ∧
    (expandNormalCluster prm map points nrm centroidIdx cid).2.2.length =
      points.length := by
  simp only [expandNormalCluster]
  obtain ⟨hsnd, hsfacts⟩ := centroidNormalNeighbours_facts prm map nrm
    centroidIdx (nrm.getD centroidIdx RVec.zero) points hmapnd hvalid
  set seeds := (centroidNormalNeighbours prm map nrm centroidIdx
    (nrm.getD centroidIdx RVec.zero) points).2 with hseeds
  by_cases hfail : seeds.length < prm.minFacePoints
  · rw [if_pos hfail]
    exact ⟨List.nodup_nil, setCID_length points centroidIdx cNoise⟩
  · rw [if_neg hfail]
    rw [expandNormalLoop_recomputes]
    set pts1 := seeds.foldl (fun st i => setCID st i (cid : ℤ)) points
      with hpts1
    have hlen1 : pts1.length = points.length := foldlSet_length cid seeds points
    have hstrong := foldlSet_strong cid seeds points hsnd
    have hvalid1 : ∀ i ∈ map.elems, i < pts1.length := by
      intro i hi
      rw [hlen1]
      exact hvalid i hi
    have hcp1 : ∀ i ∈ seeds, i < pts1.length ∧
        ((pts1.getD i noPt).cID = (cid : ℤ)) := by
      intro i hi
      refine ⟨by rw [hlen1]; exact (hsfacts i hi).1, ?_⟩
      rw [hstrong.2 i hi (hsfacts i hi).1]
    obtain ⟨-, hnd⟩ := expandNormalLoopSpec_post prm map nrm cid hmapnd
      (expandFuel pts1 (seeds.eraseIdx (indexCorePointOf seeds pts1
        (points.getD centroidIdx noPt)))) pts1
      (seeds.eraseIdx (indexCorePointOf seeds pts1
        (points.getD centroidIdx noPt))) seeds hvalid1 hcp1 hsnd
    refine ⟨hnd, ?_⟩
    rw [expandNormalLoopSpec_length, hlen1]

/-- Invariant of the `DBScan::normals` fold: buffer length is preserved
and every face pushed so far is duplicate-free. -/
theorem normalsFold_nodup (prm : NParams) (map : Octree) (nrm : List RVec)
    (n : ℕ) (hmapnd : map.elems.Nodup) (hvalid : ∀ i ∈ map.elems, i < n) :
    ∀ (l : List ℕ) (acc : ℕ × List (List ℕ) × List Point),
      acc.2.2.length = n → List.Forall List.Nodup acc.2.1 →
      (l.foldl (normalsStep prm map nrm) acc).2.2.length = n ∧
      List.Forall List.Nodup (l.foldl (normalsStep prm map nrm) acc).2.1 := by
  intro l
  induction l with
  | nil => intro acc h1 h2; exact ⟨h1, h2⟩
  | cons i rest ih =>
      intro acc h1 h2
      rw [List.foldl_cons]
      apply ih
      all_goals
        have hvalid' : ∀ j ∈ map.elems, j < acc.2.2.length := by
          intro j hj
          rw [h1]
          exact hvalid j hj
        have hx := expandNormalCluster_nodup prm map acc.2.2 nrm i acc.1
          hmapnd hvalid'
        unfold normalsStep
        by_cases hcond : (acc.2.2.getD i noPt).cID = cUnclassified ∧
          RVec.vecNe (nrm.getD i RVec.zero) RVec.zero
      case pos =>
        rw [if_pos hcond]
        by_cases hsucc : (expandNormalCluster prm map acc.2.2 nrm i acc.1).1 = true
        · simp only [hsucc, if_true]
          rw [hx.2, h1]
        · simp only [hsucc, Bool.false_eq_true, if_false]
          rw [hx.2, h1]
      case neg => rw [if_neg hcond]; exact h1
      case pos =>
        rw [if_pos hcond]
        by_cases hsucc : (expandNormalCluster prm map acc.2.2 nrm i acc.1).1 = true
        · simp only [hsucc, if_true]
          rw [List.forall_iff_forall_mem] at h2 ⊢
          intro f hf
          rcases List.mem_append.mp hf with h' | h'
          · exact h2 f h'
          · rw [List.mem_singleton.mp h']
            exact hx.1
        · simp only [hsucc, Bool.false_eq_true, if_false]
          exact h2
      case neg => rw [if_neg hcond]; exact h2

end DBScan

/-- **C6** (amended): every face (cluster index list) produced by
normal-coherent DBSCAN contains no duplicate indices — for every input
point vector and every normals vector.  (The sortedness half of the
original claim is refuted by `faces_not_sorted_counterexample`: faces
list indices in octree-traversal and absorption order, which need not
be ascending.) -/
theorem dbscan_faces_nodup (prm : NParams) (points : List Point)
    (nrm : List RVec) :
    List.Forall List.Nodup (DBScan.normals prm points nrm).1 := by
  have hmapnd : (buildOctree prm.maxPointsPerLeaf points).elems.Nodup := by
    simp only [buildOctree]
    exact buildO_elems_nodup points _ _ _ _ _ (List.nodup_range _)
  have hvalid : ∀ i ∈ (buildOctree prm.maxPointsPerLeaf points).elems,
      i < points.length := by
    intro i hi
    simp only [buildOctree] at hi
    exact List.mem_range.mp (buildO_elems_subset points _ _ _ _ _ i hi)
  simpa only [DBScan.normals] using
    (DBScan.normalsFold_nodup prm (buildOctree prm.maxPointsPerLeaf points)
      nrm points.length hmapnd hvalid (List.range points.length)
      (0, [], points) rfl trivial).2

/-! ### A run of `DBScan::normals` producing an unsorted face

Two points on the x-axis; the point at `x = -4` sits in octant 6 of the
root cube and the point at `x = +4` in octant 7, so every sphere query
lists index `1` before index `0`.  Both normals are the unit vector
`(1, 0, 0)` and all three angle thresholds are `π`, so every `acos`
comparison passes trivially and both points are accepted from the first
centroid: the face comes out as `[1, 0]`, which is not ascending. -/

def ptsC6 : List Point := [⟨4, 0, 0, -1⟩, ⟨-4, 0, 0, -1⟩]

def nrmC6 : List RVec := [⟨1, 0, 0⟩, ⟨1, 0, 0⟩]

/-- `FACE_POINT_PROXIMITY = 100`, `MIN_FACE_POINTS = 2`, one point per
octree leaf, all angle thresholds `π`. -/
noncomputable def prmC6 : NParams := ⟨100, 2, 1, Real.pi, Real.pi, Real.pi⟩

/-- The buffer after the initial seeding loop of the first expansion:
both points tagged with cluster id `0`. -/
def pts1C6 : List Point := [⟨4, 0, 0, 0⟩, ⟨-4, 0, 0, 0⟩]

open Classical in
theorem acceptC6 (meanN : RVec) (c i : ℕ) (hc : c < 2) (hi : i < 2) :
    decide (normalNeighborTest prmC6 (nrmC6.getD c RVec.zero) meanN
      (nrmC6.getD i RVec.zero)) = true := by
  apply decide_eq_true
  have hgi : nrmC6.getD i RVec.zero = e1R := by
    interval_cases i <;> rfl
  rw [hgi]
  refine ⟨e1R_ne_zero, Or.inl ⟨?_, ?_⟩⟩
  · exact Real.arccos_le_pi _
  · exact Real.arccos_le_pi _

open Classical in
theorem filterAcceptC6 (meanN : RVec) (c : ℕ) (hc : c < 2) :
    ([1, 0].filter (fun i => decide (normalNeighborTest prmC6
        (nrmC6.getD c RVec.zero) meanN (nrmC6.getD i RVec.zero)))) =
      [1, 0] := by
  simp only [List.filter_cons, List.filter_nil]
  rw [acceptC6 meanN c 1 hc (by omega), acceptC6 meanN c 0 hc (by omega)]
  simp

theorem searchC6_0 : searchO ptsC6 (ptsC6.getD 0 noPt)
    prmC6.facePointProximity (buildOctree prmC6.maxPointsPerLeaf ptsC6) =
    [1, 0] := by decide!

theorem searchC6_1 : searchO pts1C6 (pts1C6.getD 1 noPt)
    prmC6.facePointProximity (buildOctree prmC6.maxPointsPerLeaf ptsC6) =
    [1, 0] := by decide!

theorem cnnC6_0 (meanN : RVec) :
    DBScan.centroidNormalNeighbours prmC6
      (buildOctree prmC6.maxPointsPerLeaf ptsC6) nrmC6 0 meanN ptsC6 =
      (2, [1, 0]) := by
  simp only [DBScan.centroidNormalNeighbours]
  rw [searchC6_0, filterAcceptC6 meanN 0 (by omega)]
  decide!

theorem cnnC6_1 (meanN : RVec) :
    DBScan.centroidNormalNeighbours prmC6
      (buildOctree prmC6.maxPointsPerLeaf ptsC6) nrmC6 1 meanN pts1C6 =
      (2, []) := by
  simp only [DBScan.centroidNormalNeighbours]
  rw [searchC6_1, filterAcceptC6 meanN 1 (by omega)]
  decide!

theorem loopC6 (cns : List RVec) :
    DBScan.expandNormalLoop prmC6 (buildOctree prmC6.maxPointsPerLeaf ptsC6)
      nrmC6 0 2 pts1C6 [1] [1, 0] cns = (pts1C6, [1, 0]) := by
  simp only [DBScan.expandNormalLoop]
  rw [cnnC6_1 (Geometry.mean cns)]
  rw [if_pos (by decide! : prmC6.minFacePoints ≤ ((2 : ℕ), ([] : List ℕ)).1)]
  rfl

theorem expandC6 :
    DBScan.expandNormalCluster prmC6
      (buildOctree prmC6.maxPointsPerLeaf ptsC6) ptsC6 nrmC6 0 0 =
      (true, [1, 0], pts1C6) := by
  simp only [DBScan.expandNormalCluster]
  rw [cnnC6_0 (nrmC6.getD 0 RVec.zero)]
  rw [if_neg (by decide! :
    ¬ ((2 : ℕ), [1, 0]).2.length < prmC6.minFacePoints)]
  have hpts1 : ([1, 0].foldl (fun st i => setCID st i ((0 : ℕ) : ℤ)) ptsC6) =
      pts1C6 := by decide!
  rw [hpts1]
  have hicp : DBScan.indexCorePointOf ((2 : ℕ), [1, 0]).2 pts1C6
      (ptsC6.getD 0 noPt) = 1 := by decide!
  rw [hicp]
  have herase : (((2 : ℕ), [1, 0]).2).eraseIdx 1 = [1] := by decide!
  rw [herase]
  have hfuel : DBScan.expandFuel pts1C6 [1] = 2 := by decide!
  rw [hfuel]
  rw [loopC6]

/-- **C6 counterexample**: on the two-point input above, normal-coherent
DBSCAN produces exactly one face with index list `[1, 0]`, which is not
sorted in ascending order — refuting the sortedness half of the claim. -/
theorem faces_not_sorted_counterexample :
    (DBScan.normals prmC6 ptsC6 nrmC6).1 = [[1, 0]] ∧
    ¬ List.Sorted (· ≤ ·) [1, 0] := by
  constructor
  · simp only [DBScan.normals]
    have hrange : List.range ptsC6.length = [0, 1] := by decide!
    rw [hrange, List.foldl_cons, List.foldl_cons, List.foldl_nil]
    have hstep0 : DBScan.normalsStep prmC6
        (buildOctree prmC6.maxPointsPerLeaf ptsC6) nrmC6
        (0, [], ptsC6) 0 = (1, [[1, 0]], pts1C6) := by
      simp only [DBScan.normalsStep]
      have hco : ((ptsC6.getD 0 noPt).cID : ℤ) = cUnclassified := by decide
      have hnz : RVec.vecNe (nrmC6.getD 0 RVec.zero) RVec.zero := by
        rw [show nrmC6.getD 0 RVec.zero = e1R from rfl]
        exact e1R_ne_zero
      rw [if_pos ⟨hco, hnz⟩]
      rw [expandC6]
      rfl
    rw [hstep0]
    have hstep1 : DBScan.normalsStep prmC6
        (buildOctree prmC6.maxPointsPerLeaf ptsC6) nrmC6
        (1, [[1, 0]], pts1C6) 1 = (1, [[1, 0]], pts1C6) := by
      simp only [DBScan.normalsStep]
      rw [if_neg]
      rintro ⟨h, -⟩
      revert h
      decide
    rw [hstep1]
  · decide

/-! ## LVX scanner (`ScannerLVX.cc`)

The vendor lvx parsing library (`lvx_file.h` / `lds.h`) is external to
the repository; it is modelled through its interface: a file is a list
of frames, each frame a list of packets, each packet a data-type flag
plus a fixed number of point payloads (`GetPointsPerPacket` is a vendor
constant, taken as the parameter `P`).  Byte offsets are modelled in
packet/point units: `frameOffset` advances by exactly one packet length
per packet and `packetOffset` by `sizeof(LivoxExtendRawPoint)` per
point, so the unit view is in exact correspondence with the byte view.

`pause()` runs on another thread and flips the `scanning` flag, which
`readData` polls at three places (after each callback, after each
packet, after each frame).  A run of `readData` is therefore
parameterised by the index `pauseAt` of the first poll that observes
`scanning == false` (one number suffices: the flag only ever goes from
`true` to `false` during a scan). -/

/-- One eth packet of an lvx frame: data-type flag (`kExtendCartesian`
or not) plus the point payloads. -/
structure LvxPacket where
  cart : Bool
  pts : List ℕ
  deriving DecidableEq, Repr

/-- Scanner state: the (immutable) file content, the read cursor and
end flag of the vendor file handle, the fetched frame buffer, the two
resume offsets, the `scanning` flag and the log of points handed to the
callback. -/
structure ScannerLVX where
  frames : List (List LvxPacket)
  cursor : ℕ
  fileAtEnd : Bool
  buf : List LvxPacket
  frameOffset : ℕ
  packetOffset : ℕ
  scanning : Bool
  delivered : List ℕ
  deriving DecidableEq, Repr

/-- `ScanCode` from the scanner interface. -/
inductive ScanCode where
  | kScanOk
  | kScanEof
  | kScanError
  deriving DecidableEq, Repr

namespace ScannerLVX

/-- `ScannerLVX::init()` (plus construction): fresh handle at the start
of the file, offsets zero, not scanning. -/
def initState (frames : List (List LvxPacket)) : ScannerLVX :=
  ⟨frames, 0, false, [], 0, 0, false, []⟩

/-- `lvx_file.GetPacketsOfFrame`: fetch the next frame into the buffer,
or report end of file. -/
def getPacketsOfFrame (s : ScannerLVX) : Bool × ScannerLVX :=
  if s.cursor < s.frames.length then
    (true, { s with buf := s.frames.getD s.cursor [], cursor := s.cursor + 1 })
  else
    (false, { s with fileAtEnd := true })

/-- One poll of the `scanning` flag: the `tick`-th poll observes `true`
iff the pause has not yet taken effect (`tick < pauseAt`). -/
def readFlag (pauseAt tick : ℕ) (s : ScannerLVX) : Bool × ℕ × ScannerLVX :=
  let v := decide (tick < pauseAt)
  (v, tick + 1, { s with scanning := v })

/-- The innermost point loop of `readData` (lines 120-135): deliver the
point at `packetOffset`, then advance only while still scanning.
`rem = P - packetOffset` counts the remaining iterations of
`while (i < points_in_packet)`. -/
def pointLoop (pauseAt : ℕ) : ℕ → ℕ → List ℕ → ScannerLVX → ℕ × ScannerLVX
  | 0, tick, _, s => (tick, s)
  | rem + 1, tick, pkt, s =>
      let s1 := { s with delivered := s.delivered ++ [pkt.getD s.packetOffset 0] }
      let r := readFlag pauseAt tick s1
      if r.1 then
        pointLoop pauseAt rem r.2.1 pkt
          { r.2.2 with packetOffset := r.2.2.packetOffset + 1 }
      else (r.2.1, r.2.2)

/-- The packet loop of `readData` (lines 108-144): parse the packet at
`frameOffset`, run the point loop on `kExtendCartesian` packets, then
advance to the next packet only while still scanning.
`rem = buf.length - frameOffset` counts the remaining packets. -/
def packetLoop (P pauseAt : ℕ) : ℕ → ℕ → ScannerLVX → ℕ × ScannerLVX
  | 0, tick, s => (tick, s)
  | rem + 1, tick, s =>
      let pkt := s.buf.getD s.frameOffset ⟨false, []⟩
      let r1 :=
        if pkt.cart then pointLoop pauseAt (P - s.packetOffset) tick pkt.pts s
        else (tick, s)
      let r2 := readFlag pauseAt r1.1 r1.2
      if r2.1 then
        packetLoop P pauseAt rem r2.2.1
          { r2.2.2 with packetOffset := 0, frameOffset := r2.2.2.frameOffset + 1 }
      else (r2.2.1, r2.2.2)

/-- The frame loop of `readData` (lines 106-152): process the fetched
frame, then fetch the next frame only while still scanning; `ok` is the
local `fileState == kLvxFileOk`.  `rem` exceeds the number of frames
still fetchable, so the counter never reaches zero while `ok` holds. -/
def frameLoop (P pauseAt : ℕ) : ℕ → Bool → ℕ → ScannerLVX → ℕ × ScannerLVX
  | _, false, tick, s => (tick, s)
  | 0, true, tick, s => (tick, s)
  | rem + 1, true, tick, s =>
      let r1 := packetLoop P pauseAt (s.buf.length - s.frameOffset) tick s
      let r2 := readFlag pauseAt r1.1 r1.2
      if r2.1 then
        let r3 := getPacketsOfFrame { r2.2.2 with frameOffset := 0 }
        frameLoop P pauseAt rem r3.1 r2.2.1 r3.2
      else (r2.2.1, r2.2.2)

/-- `ScannerLVX::readData`. -/
def readData (P pauseAt : ℕ) (s0 : ScannerLVX) : ScanCode × ScannerLVX :=
  let r :=
    if s0.packetOffset = 0 ∧ s0.frameOffset = 0 then getPacketsOfFrame s0
    else (true, s0)
  let r2 := frameLoop P pauseAt (r.2.frames.length + 1 - r.2.cursor) r.1 0 r.2
  if r2.2.frameOffset = 0 ∧ r2.2.packetOffset = 0 ∧ r2.2.fileAtEnd then
    (ScanCode.kScanEof, { r2.2 with scanning := false })
  else (ScanCode.kScanOk, r2.2)

/-- `ScannerLVX::pause()`. -/
def pauseScanner (s : ScannerLVX) : ScannerLVX := { s with scanning := false }

/-- `ScannerLVX::scan()`: reopen the file when a previous scan consumed
it completely, refuse to run when already scanning. -/
def scan (P pauseAt : ℕ) (s : ScannerLVX) : ScanCode × ScannerLVX :=
  if !s.scanning then
    let s1 :=
      if s.frameOffset = 0 ∧ s.packetOffset = 0 ∧ s.fileAtEnd then
        { s with cursor := 0, fileAtEnd := false }
      else s
    if !s1.fileAtEnd then readData P pauseAt { s1 with scanning := true }
    else (ScanCode.kScanError, s1)
  else (ScanCode.kScanError, s)

end ScannerLVX

/-- **C7** (refuted — code bug): the scanner does NOT invoke the callback
exactly once per decoded point across a scan/pause/scan sequence that
reads the file to the end.  On a one-frame file whose single cartesian
packet decodes the two points `10, 20` (two points per packet), a scan
paused right after the first callback resumes at `packetOffset` pointing
at the SECOND point, because `readData` breaks out of the point loop
before advancing the offset (line 133) — yet the callback for that point
has already run (line 126).  The resumed scan re-parses and re-delivers
point `20`, then reaches end of file: the delivered log is
`[10, 20, 20]` although the file decodes to `[10, 20]`. -/
theorem scanner_pause_redelivers_point :
    (ScannerLVX.scan 2 1000
        (ScannerLVX.scan 2 1 (ScannerLVX.initState [[⟨true, [10, 20]⟩]])).2).1
      = ScanCode.kScanEof ∧
    (ScannerLVX.scan 2 1 (ScannerLVX.initState [[⟨true, [10, 20]⟩]])).1
      = ScanCode.kScanOk ∧
    (ScannerLVX.scan 2 1000
        (ScannerLVX.scan 2 1 (ScannerLVX.initState [[⟨true, [10, 20]⟩]])).2).2.delivered
      = [10, 20, 20] ∧
    (([[LvxPacket.mk true [10, 20]]].flatten.filter (fun q => q.cart)).map
        LvxPacket.pts).flatten = [10, 20] := by
  decide

/-- **C10**: calling `scan()` while a scan is already in progress
(`scanning == true`) returns `kScanError` and leaves the scanner state —
offsets, flag, file handle, callback log — unchanged. -/
theorem scan_while_scanning_errors (P pauseAt : ℕ) (s : ScannerLVX)
    (h : s.scanning = true) :
    ScannerLVX.scan P pauseAt s = (ScanCode.kScanError, s) := by
  simp [ScannerLVX.scan, h]

/-- Witness for C10 at a concrete in-progress scanner state. -/
theorem scan_while_scanning_errors_witness :
    ScannerLVX.scan 2 5 ⟨[[⟨true, [7]⟩]], 0, false, [], 0, 0, true, []⟩ =
      (ScanCode.kScanError, ⟨[[⟨true, [7]⟩]], 0, false, [], 0, 0, true, []⟩) :=
  scan_while_scanning_errors 2 5 ⟨[[⟨true, [7]⟩]], 0, false, [], 0, 0, true, []⟩ rfl

end LBAD
